import Mathlib

/-
Shallow embedding of the bwoverlay-rs sources (src/main.rs and src/hypixel.rs):
the watch-callback event detector, the Mojang identifier resolver with its
fallback path, the spawned enrichment task, the binary32 arithmetic behind
calculate_level, the HypixelPlayer::from_api field mapping, and the serde
deserialization used by get_hypixel_data.
-/

/-! Rust strings are modeled as lists of characters. -/

abbrev Str := List Char

def toL (s : String) : Str := s.data

def ofL (l : Str) : String := String.mk l

/-- Rust char::is_whitespace restricted to the ASCII whitespace characters;
only whether a log line is whitespace-only depends on it. -/
def isRustWhitespace (c : Char) : Bool :=
  c = ' ' || c = '\t' || c = '\n' || c = '\r' || c = '\x0b' || c = '\x0c'

/-- Split off the first occurrence of sep: everything strictly before it and
everything strictly after it, or none when sep does not occur. -/
def findSep (sep : Str) : Str → Option (Str × Str)
  | [] => if sep = [] then some ([], []) else none
  | c :: rest =>
    if sep.isPrefixOf (c :: rest) then some ([], (c :: rest).drop sep.length)
    else
      match findSep sep rest with
      | some (p, q) => some (c :: p, q)
      | none => none

def splitOnFuel (sep : Str) : ℕ → Str → List Str
  | 0, s => [s]
  | fuel + 1, s =>
    match findSep sep s with
    | none => [s]
    | some (p, q) => p :: splitOnFuel sep fuel q

/-- Rust str::split for a nonempty literal separator: the pieces between
consecutive occurrences, in order (n occurrences give n + 1 pieces, so a
string equal to the separator gives two empty pieces, and an empty input
gives one empty piece). -/
def splitStr (sep s : Str) : List Str := splitOnFuel sep (s.length + 1) s

/-- Rust str::lines: split on newline, drop the final empty piece produced by
a trailing newline, and strip one trailing carriage return from each line. -/
def rustLines (s : Str) : List Str :=
  let parts := splitStr ['\n'] s
  let parts := if parts.getLast? = some [] then parts.dropLast else parts
  parts.map (fun l => if l.getLast? = some '\r' then l.dropLast else l)

/-- The expression log.lines().rev().find(|line| !line.trim().is_empty())
.unwrap_or("") from the watch callback in main.rs: the last line that is not
whitespace-only (trim().is_empty() holds exactly when every character is
whitespace). -/
def lastNonBlank (log : Str) : Str :=
  ((rustLines log).reverse.find? (fun l => !(l.all isRustWhitespace))).getD []

/-- The literal part of the trigger regex in main.rs, written there as the
pattern matching a bracketed CHAT marker followed by the online list. -/
def chatOnlineMarker : Str := toL "[CHAT] ONLINE: "

/-- Matching the trigger regex against a line: the regex scans for the first
occurrence of the literal marker and the single capture group greedily takes
the rest of the line (last lines contain no newline). -/
def captureOnline (line : Str) : Option Str :=
  match findSep chatOnlineMarker line with
  | some (_, rest) => some rest
  | none => none

def commaSpace : Str := toL ", "

/-- cleaned_line.split(", ").map(|x| x.to_string()).collect() on the capture,
or none when the regex does not match. -/
def extractNames (line : Str) : Option (List Str) :=
  (captureOnline line).map (fun rest => splitStr commaSpace rest)

/-- The body of the hotwatch Modify callback in main.rs after a successful
read of the log file: returns the new value of last_processed_line and the
name list handed to the spawned enrichment task (none when the callback
returns without spawning: duplicate last line, or no regex match). -/
def handleModify (stored : Str) (log : Str) : Str × Option (List Str) :=
  let lastLine := lastNonBlank log
  if lastLine = stored then (stored, none)
  else
    match extractNames lastLine with
    | some names => (lastLine, some names)
    | none => (lastLine, none)

/-! The identifier resolver get_player_uuids / handle_mojang_failure. The
network is an oracle: one outcome per primary batch call (indexed by batch
position) and one outcome per fallback single-name call (indexed by name). -/

/-- The Player struct of main.rs (derive Deserialize). -/
structure Player where
  name : String
  id : String
deriving DecidableEq

/-- Outcome of deserializing a response body via resp.json(). -/
inductive ParseRes (α : Type) where
  | ok (v : α)
  | fail
deriving DecidableEq

/-- Environment behavior of one primary batched lookup (the POST to the bulk
byname endpoint): transport-level error of the request itself, a response
with a non-success status, or a success status whose body then parses (or
fails to parse) as Vec of Player. -/
inductive PrimaryOutcome where
  | transportErr
  | httpErr
  | httpOk (parse : ParseRes (List Player))
deriving DecidableEq

/-- Environment behavior of one fallback single-name lookup (the GET to the
minetools uuid endpoint). -/
inductive FallbackOutcome where
  | transportErr
  | gotResp (parse : ParseRes Player)
deriving DecidableEq

/-- One network call issued by the resolver, in issue order. -/
inductive RCall where
  | primary (chunk : List String)
  | fallback (name : String)
deriving DecidableEq

def RCall.fallbackName : RCall → Option String
  | .fallback n => some n
  | _ => none

def RCall.primaryChunk : RCall → Option (List String)
  | .primary c => some c
  | _ => none

def fallbackCalls (cs : List RCall) : List String := cs.filterMap RCall.fallbackName

def primaryCalls (cs : List RCall) : List (List String) := cs.filterMap RCall.primaryChunk

/-- HashMap::insert keyed by player id (overwrite on repeated key), modeled
on an association list; iteration order of the HashMap is not relied upon. -/
def insertKV (m : List (String × String)) (k v : String) : List (String × String) :=
  if m.any (fun p => p.1 = k) then m.map (fun p => if p.1 = k then (k, v) else p)
  else m ++ [(k, v)]

def chunksFuel : ℕ → List String → List (List String)
  | _, [] => []
  | 0, l => [l]
  | fuel + 1, l => l.take 10 :: chunksFuel fuel (l.drop 10)

/-- names.chunks(10): consecutive batches of at most 10, in order. -/
def chunks10 (names : List String) : List (List String) := chunksFuel names.length names

/-- handle_mojang_failure in main.rs: for each name of the failed chunk, one
fallback GET; a transport error silently skips that name; a body that fails
to deserialize propagates an error immediately (resp.json() under the
question-mark operator). Returns the calls issued and either the updated map
or the propagated error. -/
def handle_mojang_failure (fb : String → FallbackOutcome) :
    List String → List (String × String) → List RCall × Except Unit (List (String × String))
  | [], acc => ([], .ok acc)
  | name :: rest, acc =>
    match fb name with
    | .transportErr =>
      let r := handle_mojang_failure fb rest acc
      (.fallback name :: r.1, r.2)
    | .gotResp .fail => ([.fallback name], .error ())
    | .gotResp (.ok p) =>
      let r := handle_mojang_failure fb rest (insertKV acc p.id p.name)
      (.fallback name :: r.1, r.2)

/-- The batch loop of get_player_uuids: for each chunk in order, one primary
call; on a transport error of the request itself the chunk is skipped with no
fallback (the if-let on the send result); on a non-success status the
fallback path runs for the chunk; on a success status the body is parsed,
a parse failure aborting the whole resolution. -/
def runChunks (prim : ℕ → PrimaryOutcome) (fb : String → FallbackOutcome) :
    ℕ → List (List String) → List (String × String) →
    List RCall × Except Unit (List (String × String))
  | _, [], acc => ([], .ok acc)
  | i, chunk :: rest, acc =>
    match prim i with
    | .transportErr =>
      let r := runChunks prim fb (i + 1) rest acc
      (.primary chunk :: r.1, r.2)
    | .httpErr =>
      match handle_mojang_failure fb chunk acc with
      | (calls, .ok acc2) =>
        let r := runChunks prim fb (i + 1) rest acc2
        (.primary chunk :: (calls ++ r.1), r.2)
      | (calls, .error e) => (.primary chunk :: calls, .error e)
    | .httpOk .fail => ([.primary chunk], .error ())
    | .httpOk (.ok players) =>
      let r := runChunks prim fb (i + 1) rest
        (players.foldl (fun acc p => insertKV acc p.id p.name) acc)
      (.primary chunk :: r.1, r.2)

/-- get_player_uuids in main.rs: partition the names into chunks of 10 and
process each chunk in order against the oracles. -/
def get_player_uuids (prim : ℕ → PrimaryOutcome) (fb : String → FallbackOutcome)
    (names : List String) : List RCall × Except Unit (List (String × String)) :=
  runChunks prim fb 0 (chunks10 names) []

/-! Binary32 arithmetic. Finite f32 values are dyadic rationals; rnd32 is
round to nearest, ties to even, with the subnormal threshold clamped and no
upper exponent clamp (no computation modeled here can overflow to infinity,
since the magnitudes stay far below the largest finite f32). -/

/-- Round a rational to the nearest integer, ties to even. -/
def rhe (n : ℚ) : ℤ :=
  if n - ⌊n⌋ < 1 / 2 then ⌊n⌋
  else if 1 / 2 < n - ⌊n⌋ then ⌊n⌋ + 1
  else if ⌊n⌋ % 2 = 0 then ⌊n⌋ else ⌊n⌋ + 1

/-- The binade exponent used by binary32 rounding, clamped at the subnormal
threshold. -/
def f32exp (q : ℚ) : ℤ := max (Int.log 2 q) (-126)

/-- Position of the least significant mantissa bit of the binade of q. -/
def f32scale (q : ℚ) : ℤ := f32exp q - 23

/-- Round a positive rational to the nearest binary32 value. -/
def rnd32pos (q : ℚ) : ℚ := (rhe (q / 2 ^ f32scale q) : ℚ) * 2 ^ f32scale q

/-- Round a rational to the nearest binary32 value (round to nearest, ties to
even; IEEE 754 rounding is sign-symmetric). -/
def rnd32 (q : ℚ) : ℚ :=
  if q = 0 then 0 else if q < 0 then -rnd32pos (-q) else rnd32pos q

/-- The finite binary32 magnitudes: integer multiples of powers of two with a
24-bit mantissa, down to the least subnormal spacing (not clamped above; see
rnd32). -/
def isF32 (q : ℚ) : Prop :=
  ∃ m e : ℤ, m.natAbs < 2 ^ 24 ∧ -149 ≤ e ∧ q = m * 2 ^ e

def add32 (a b : ℚ) : ℚ := rnd32 (a + b)

def sub32 (a b : ℚ) : ℚ := rnd32 (a - b)

def mul32 (a b : ℚ) : ℚ := rnd32 (a * b)

def div32 (a b : ℚ) : ℚ := rnd32 (a / b)

/-- f32::sqrt of a positive representable rational: the correctly rounded
square root, computed on the integer W = v scaled into the target binade
(a correctly rounded square root can never fall on a tie). Nonpositive
inputs never arise in calculate_level, whose radicand is at least
REVERSE_CONST. -/
def sqrt32 (v : ℚ) : ℚ :=
  if v ≤ 0 then 0
  else
    let f := Int.log 2 v / 2
    let W := (⌊v * 2 ^ (46 - 2 * f)⌋).toNat
    let k := Nat.sqrt W
    let k2 := if (2 * k + 1) ^ 2 ≤ 4 * W then k + 1 else k
    (k2 : ℚ) * 2 ^ (f - 23)

/-- f32::floor: the integer part is exactly representable, so the value is
the mathematical floor. -/
def floor32 (q : ℚ) : ℚ := (⌊q⌋ : ℚ)

/-- f32::round: round half away from zero. -/
def roundAway (q : ℚ) : ℤ := if 0 ≤ q then ⌊q + 1 / 2⌋ else ⌈q - 1 / 2⌉

/-- Rust numeric cast of an integral f32 value with the as operator to i32:
saturating. -/
def i32sat (n : ℤ) : ℤ := max (-(2 ^ 31)) (min (2 ^ 31 - 1) n)

/-- Rust numeric cast i32 as f32: round to nearest f32. -/
def i32f (n : ℤ) : ℚ := rnd32 (n : ℚ)

/-- An f32 value as stored in a report field: a finite representable
rational, an infinity, or NaN. -/
inductive F32V where
  | finite (q : ℚ)
  | pinf
  | ninf
  | nan
deriving DecidableEq

/-- f32 division for finite operands whose denominator comes from an i32 cast
(so a zero denominator is positive zero): IEEE 754 semantics, correctly
rounded quotient and signed infinities or NaN on a zero denominator. -/
def divF32 (a b : ℚ) : F32V :=
  if b = 0 then
    if 0 < a then .pinf else if a < 0 then .ninf else .nan
  else .finite (rnd32 (a / b))

/-! Constants and calculate_level from hypixel.rs. Rust evaluates the const
expressions in f32 as well. -/

def BASE : ℚ := 10000

def GROWTH : ℚ := 2500

def HALF_GROWTH : ℚ := mul32 GROWTH (1 / 2)

def REVERSE_PQ_PREFIX : ℚ := -(div32 (sub32 BASE (mul32 (1 / 2) GROWTH)) GROWTH)

def REVERSE_CONST : ℚ := mul32 REVERSE_PQ_PREFIX REVERSE_PQ_PREFIX

def GROWTH_DIVIDES_2 : ℚ := div32 2 GROWTH

/-- calculate_level in hypixel.rs, with every operation performed in f32. -/
def calculate_level (exp : ℚ) : ℚ :=
  if exp < 0 then 1
  else
    floor32 (add32 (add32 1 REVERSE_PQ_PREFIX)
      (sqrt32 (add32 REVERSE_CONST (mul32 GROWTH_DIVIDES_2 exp))))

/-! The report record and the raw API records of hypixel.rs. -/

structure HypixelPlayer where
  name : String
  uuid : String
  rank : String
  network_xp : ℤ
  network_level : ℤ
  level : ℤ
  winstreak : ℤ
  fkdr : F32V
  wlr : F32V
  final_kills : ℤ
  wins : ℤ
  bed_break : ℤ
deriving DecidableEq

structure ApiBedwarsStats where
  winstreak : Option ℤ
  final_kills_bedwars : Option ℤ
  final_deaths_bedwars : Option ℤ
  wins_bedwars : Option ℤ
  losses_bedwars : Option ℤ
  beds_broken_bedwars : Option ℤ
deriving DecidableEq

structure ApiStats where
  bedwars : Option ApiBedwarsStats
deriving DecidableEq

structure ApiAchievements where
  bedwars_level : Option ℤ
deriving DecidableEq

structure ApiHypixelPlayer where
  name : String
  monthly_package_rank : Option String
  new_package_rank : Option String
  network_xp : Option ℤ
  achievements : Option ApiAchievements
  stats : Option ApiStats
deriving DecidableEq

structure ApiHypixelData where
  player : Option ApiHypixelPlayer
deriving DecidableEq

def replaceFuel (pat rep : Str) : ℕ → Str → Str
  | 0, s => s
  | fuel + 1, s =>
    match findSep pat s with
    | none => s
    | some (p, q) => p ++ rep ++ replaceFuel pat rep fuel q

/-- Rust str::replace with a nonempty literal pattern: replace every
occurrence, left to right. -/
def rustReplace (s pat rep : String) : String :=
  ofL (replaceFuel (toL pat) (toL rep) (s.data.length + 1) s.data)

/-- HypixelPlayer::from_api in hypixel.rs: the sentinel-default field mapping
from the raw API record to the report record. -/
def HypixelPlayer.from_api (raw_info : ApiHypixelPlayer) (player_uuid : String) :
    HypixelPlayer where
  name := raw_info.name
  uuid := player_uuid
  rank :=
    if raw_info.monthly_package_rank.getD "" = "SUPERSTAR" then "MVP++"
    else rustReplace (raw_info.new_package_rank.getD "Default") "_PLUS" "+"
  network_xp := raw_info.network_xp.getD 0
  network_level := i32sat (roundAway (calculate_level (i32f (raw_info.network_xp.getD (-1)))))
  level := (raw_info.achievements.bind ApiAchievements.bedwars_level).getD (-1)
  winstreak := (((raw_info.stats.bind ApiStats.bedwars).bind ApiBedwarsStats.winstreak)).getD (-1)
  fkdr :=
    divF32
      (i32f (((raw_info.stats.bind ApiStats.bedwars).bind
        ApiBedwarsStats.final_kills_bedwars).getD (-1)))
      (i32f (((raw_info.stats.bind ApiStats.bedwars).bind
        ApiBedwarsStats.final_deaths_bedwars).getD (-1)))
  wlr :=
    divF32
      (i32f (((raw_info.stats.bind ApiStats.bedwars).bind
        ApiBedwarsStats.wins_bedwars).getD (-1)))
      (i32f (((raw_info.stats.bind ApiStats.bedwars).bind
        ApiBedwarsStats.losses_bedwars).getD (-1)))
  final_kills :=
    ((raw_info.stats.bind ApiStats.bedwars).bind
      ApiBedwarsStats.final_kills_bedwars).getD (-1)
  wins :=
    ((raw_info.stats.bind ApiStats.bedwars).bind
      ApiBedwarsStats.wins_bedwars).getD (-1)
  bed_break :=
    ((raw_info.stats.bind ApiStats.bedwars).bind
      ApiBedwarsStats.beds_broken_bedwars).getD (-1)

/-! The spawned enrichment task of main.rs. -/

/-- Outcome of get_hypixel_data for one uuid, as seen by the spawned task. -/
inductive FetchOutcome where
  | ok (r : HypixelPlayer)
  | err

/-- The spawned task body in main.rs: iterate over the resolved players and
for each call get_hypixel_data, log a fetch error through map_err, and then
unwrap the result, so an Err panics the task and ends the iteration. Returns
the uuids actually fetched, the reports emitted, and whether the task
panicked. -/
def enrichTask (fetch : String → FetchOutcome) :
    List (String × String) → List String × List HypixelPlayer × Bool
  | [] => ([], [], false)
  | (uuid, _) :: rest =>
    match fetch uuid with
    | .ok r =>
      let t := enrichTask fetch rest
      (uuid :: t.1, r :: t.2.1, t.2.2)
    | .err => ([uuid], [], true)

/-! JSON values and the serde deserialization used by get_hypixel_data. -/

inductive Json where
  | null
  | bool (b : Bool)
  | num (q : ℚ)
  | str (s : String)
  | arr (elems : List Json)
  | obj (fields : List (String × Json))

def Json.getField : Json → String → Option Json
  | .obj fs, k => (fs.find? (fun p => p.1 == k)).map Prod.snd
  | _, _ => none

/-- serde: a required String field. -/
def parseStrField (j : Json) (k : String) : Except String String :=
  match j.getField k with
  | some (.str s) => .ok s
  | _ => .error ("invalid field " ++ k)

/-- serde: a required i32 field must be an integral in-range JSON number. -/
def parseI32Field (j : Json) (k : String) : Except String ℤ :=
  match j.getField k with
  | some (.num q) =>
    if q.den = 1 ∧ -(2 ^ 31) ≤ q.num ∧ q.num < 2 ^ 31 then .ok q.num
    else .error ("invalid field " ++ k)
  | _ => .error ("invalid field " ++ k)

/-- serde: a required f32 field: any JSON number, rounded to f32. -/
def parseF32Field (j : Json) (k : String) : Except String F32V :=
  match j.getField k with
  | some (.num q) => .ok (.finite (rnd32 q))
  | _ => .error ("invalid field " ++ k)

/-- serde: an Option i32 field: absent or null is None. -/
def parseOptI32 (j : Json) (k : String) : Except String (Option ℤ) :=
  match j.getField k with
  | none => .ok none
  | some .null => .ok none
  | some (.num q) =>
    if q.den = 1 ∧ -(2 ^ 31) ≤ q.num ∧ q.num < 2 ^ 31 then .ok (some q.num)
    else .error ("invalid field " ++ k)
  | some _ => .error ("invalid field " ++ k)

/-- serde: an Option String field: absent or null is None. -/
def parseOptStr (j : Json) (k : String) : Except String (Option String) :=
  match j.getField k with
  | none => .ok none
  | some .null => .ok none
  | some (.str s) => .ok (some s)
  | some _ => .error ("invalid field " ++ k)

/-- serde target of the active get_hypixel_data: the HypixelPlayer report
struct itself, every field required, no renames. -/
def parseHypixelPlayer (j : Json) : Except String HypixelPlayer := do
  let name ← parseStrField j "name"
  let uuid ← parseStrField j "uuid"
  let rank ← parseStrField j "rank"
  let nxp ← parseI32Field j "network_xp"
  let nlvl ← parseI32Field j "network_level"
  let lvl ← parseI32Field j "level"
  let ws ← parseI32Field j "winstreak"
  let fkdr ← parseF32Field j "fkdr"
  let wlr ← parseF32Field j "wlr"
  let fk ← parseI32Field j "final_kills"
  let w ← parseI32Field j "wins"
  let bb ← parseI32Field j "bed_break"
  return ⟨name, uuid, rank, nxp, nlvl, lvl, ws, fkdr, wlr, fk, w, bb⟩

def parseApiBedwarsStats (j : Json) : Except String ApiBedwarsStats := do
  let ws ← parseOptI32 j "winstreak"
  let fk ← parseOptI32 j "final_kills_bedwars"
  let fd ← parseOptI32 j "final_deaths_bedwars"
  let w ← parseOptI32 j "wins_bedwars"
  let l ← parseOptI32 j "losses_bedwars"
  let bb ← parseOptI32 j "beds_broken_bedwars"
  return ⟨ws, fk, fd, w, l, bb⟩

def parseApiStats (j : Json) : Except String ApiStats :=
  match j.getField "Bedwars" with
  | none => .ok ⟨none⟩
  | some .null => .ok ⟨none⟩
  | some sub =>
    match parseApiBedwarsStats sub with
    | .ok b => .ok ⟨some b⟩
    | .error e => .error e

def parseApiAchievements (j : Json) : Except String ApiAchievements :=
  match parseOptI32 j "bedwars_level" with
  | .ok v => .ok ⟨v⟩
  | .error e => .error e

def parseApiHypixelPlayer (j : Json) : Except String ApiHypixelPlayer := do
  let name ← parseStrField j "displayname"
  let mpr ← parseOptStr j "monthlyPackageRank"
  let npr ← parseOptStr j "newPackageRank"
  let nxp ← parseOptI32 j "networkExp"
  let ach ←
    match j.getField "achievements" with
    | none => pure none
    | some .null => pure none
    | some sub =>
      match parseApiAchievements sub with
      | .ok a => pure (some a)
      | .error e => throw e
  let st ←
    match j.getField "stats" with
    | none => pure none
    | some .null => pure none
    | some sub =>
      match parseApiStats sub with
      | .ok s => pure (some s)
      | .error e => throw e
  return ⟨name, mpr, npr, nxp, ach, st⟩

/-- serde target of the commented-out replacement: the top-level player field
is optional. -/
def parseApiHypixelData (j : Json) : Except String ApiHypixelData :=
  match j.getField "player" with
  | none => .ok ⟨none⟩
  | some .null => .ok ⟨none⟩
  | some sub =>
    match parseApiHypixelPlayer sub with
    | .ok p => .ok ⟨some p⟩
    | .error e => .error e

inductive HypixelFetchError where
  | remoteService
  | deserialization (msg : String)
  | playerNotFound
deriving DecidableEq

/-- The active get_hypixel_data in main.rs once the response has arrived: a
non-success status is a remote-service error; otherwise the body is parsed by
serde_json directly into the HypixelPlayer report struct, a parse failure
being a deserialization error. No other outcome exists on this path. -/
def get_hypixel_data (statusSuccess : Bool) (body : Json) :
    Except HypixelFetchError HypixelPlayer :=
  if statusSuccess then
    match parseHypixelPlayer body with
    | .ok p => .ok p
    | .error e => .error (.deserialization e)
  else .error .remoteService

/-- Modelled from the spec: the enrichment fetch of section 4.4, which is
present in main.rs only as the commented-out replacement behind the TODO at
the end of the file: parse the success body as ApiHypixelData, whose
top-level player field is optional, fail with PlayerNotFound when that field
is absent, and map through HypixelPlayer::from_api otherwise. -/
def get_hypixel_data_spec (statusSuccess : Bool) (uuid : String) (body : Json) :
    Except HypixelFetchError HypixelPlayer :=
  if statusSuccess then
    match parseApiHypixelData body with
    | .error e => .error (.deserialization e)
    | .ok d =>
      match d.player with
      | some p => .ok (HypixelPlayer.from_api p uuid)
      | none => .error .playerNotFound
  else .error .remoteService

deriving instance DecidableEq for Except

/-! Concrete inputs used by counterexamples and witnesses. -/

/-- 25 names: the batch-partition example of the spec. -/
def names25 : List String := List.replicate 25 "a"

/-- 11 names: two chunks, of sizes 10 and 1. -/
def names11 : List String := List.replicate 11 "b"

/-- Primary oracle whose second batch (index 1) returns a non-success status
and every other batch succeeds with an empty body. -/
def primW (i : ℕ) : PrimaryOutcome := if i = 1 then .httpErr else .httpOk (.ok [])

/-- Fallback oracle that always fails at the transport level (so no fallback
body is ever parsed). -/
def fbW (_ : String) : FallbackOutcome := .transportErr

/-- Primary oracle whose first batch returns a non-success status. -/
def primCex (i : ℕ) : PrimaryOutcome := if i = 0 then .httpErr else .httpOk (.ok [])

/-- Fallback oracle whose responses always fail to deserialize. -/
def fbCex (_ : String) : FallbackOutcome := .gotResp .fail

/-- Primary oracle that always fails at the transport level. -/
def primT (_ : ℕ) : PrimaryOutcome := .transportErr

/-- Primary oracle that always returns a non-success status. -/
def primH (_ : ℕ) : PrimaryOutcome := .httpErr

/-- Fallback oracle that resolves every name to a fixed id. -/
def fbOk (name : String) : FallbackOutcome := .gotResp (.ok ⟨name, "id0"⟩)

/-- A raw API record with final_kills_bedwars = 5 and final_deaths_bedwars = 0
(other statistics absent). -/
def rawFiveZero : ApiHypixelPlayer :=
  ⟨"p", none, none, none, none, some ⟨some ⟨none, some 5, some 0, none, none, none⟩⟩⟩

/-- A raw API record with every optional field absent. -/
def rawAbsent : ApiHypixelPlayer := ⟨"p", none, none, none, none, none⟩

/-- A placeholder report used by the fetch oracle of the orchestration
counterexample. -/
def dummyReport : HypixelPlayer :=
  ⟨"", "", "", 0, 0, 0, 0, .finite 0, .finite 0, 0, 0, 0⟩

/-- Fetch oracle for which exactly the identity u1 fails. -/
def fetchCex (uuid : String) : FetchOutcome :=
  if uuid = "u1" then .err else .ok dummyReport

/-! Helper lemmas about the event detector. -/

theorem handleModify_fst (stored log : Str) :
    (handleModify stored log).1 = lastNonBlank log := by
  unfold handleModify
  by_cases h : lastNonBlank log = stored
  · simp [h]
  · simp only [if_neg h]
    cases hx : extractNames (lastNonBlank log) <;> simp

/-- C1: a notification whose extracted last non-blank line equals the stored
last_processed_line performs zero dispatches and leaves the stored line
unchanged; consequently, handling the same log content twice in a row
dispatches at most once (the second handling never dispatches). -/
theorem c1_duplicate_suppression :
    (∀ stored log, lastNonBlank log = stored → handleModify stored log = (stored, none)) ∧
    (∀ stored log, (handleModify (handleModify stored log).1 log).2 = none) := by
  have hbase : ∀ stored log, lastNonBlank log = stored →
      handleModify stored log = (stored, none) := by
    intro stored log h
    unfold handleModify
    simp [h]
  refine ⟨hbase, ?_⟩
  intro stored log
  rw [hbase _ _ (handleModify_fst stored log).symm]

/-- Witness for C1 at a concrete stored line and log content. -/
theorem c1_duplicate_suppression_witness :
    lastNonBlank (toL "[CHAT] ONLINE: Alice\n") = toL "[CHAT] ONLINE: Alice" ∧
    handleModify (toL "[CHAT] ONLINE: Alice") (toL "[CHAT] ONLINE: Alice\n") =
      (toL "[CHAT] ONLINE: Alice", none) :=
  ⟨by decide, c1_duplicate_suppression.1 _ _ (by decide)⟩

/-- C9 counterexample: on an empty captured remainder the extracted list is
the singleton list holding the empty string, not the empty list. -/
theorem c9_counterexample :
    captureOnline (toL "[CHAT] ONLINE: ") = some [] ∧
    extractNames (toL "[CHAT] ONLINE: ") ≠ some [] := by
  constructor <;> decide

/-- C9 (amended): for every line matching the trigger pattern the extracted
name list is the captured remainder split on the literal comma-space
separator, in order; an empty captured remainder yields the one-element list
holding the empty string (no crash). -/
theorem c9_name_extraction_amended :
    (∀ line rest, captureOnline line = some rest →
      extractNames line = some (splitStr commaSpace rest)) ∧
    extractNames (toL "[CHAT] ONLINE: Alice, Bob, Carol") =
      some [toL "Alice", toL "Bob", toL "Carol"] ∧
    extractNames (toL "[CHAT] ONLINE: ") = some [[]] := by
  refine ⟨?_, by decide, by decide⟩
  intro line rest h
  unfold extractNames
  rw [h]
  rfl

/-- Witness for the amended C9 at a concrete line. -/
theorem c9_name_extraction_amended_witness :
    captureOnline (toL "[CHAT] ONLINE: Alice") = some (toL "Alice") ∧
    extractNames (toL "[CHAT] ONLINE: Alice") =
      some (splitStr commaSpace (toL "Alice")) :=
  ⟨by decide, c9_name_extraction_amended.1 _ _ (by decide)⟩

/-- C10 counterexample: a notification whose last line does not match the
trigger pattern still overwrites last_processed_line (here from the startup
empty string), with zero dispatches, so the stored value is not the last
matched-and-dispatched line. -/
theorem c10_counterexample :
    handleModify [] (toL "hello") = (toL "hello", none) ∧
    toL "hello" ≠ ([] : Str) ∧
    extractNames (toL "hello") = none := by
  refine ⟨by decide, by decide, by decide⟩

/-- C10 (amended): after every completed notification handling the stored
last_processed_line equals the last non-blank line of the log content just
read, whether or not that line matched the trigger pattern (the store happens
unconditionally before the pattern is applied). -/
theorem c10_stored_line_amended :
    ∀ stored log, (handleModify stored log).1 = lastNonBlank log :=
  handleModify_fst

/-- C4: evaluating the spawned-task model at a run of two identities whose
first stats fetch fails: the task logs, panics on the unwrap, emits no report
and never fetches the second identity, so the second identity of the same run
does not continue. -/
theorem c4_fetch_failure_aborts_task :
    enrichTask fetchCex [("u1", "p1"), ("u2", "p2")] = (["u1"], [], true) ∧
    "u2" ∉ (enrichTask fetchCex [("u1", "p1"), ("u2", "p2")]).1 := by
  constructor <;> decide

/-! Helper lemmas about batch partitioning and the resolver loop. -/

theorem fallbackCalls_cons_primary (c : List String) (cs : List RCall) :
    fallbackCalls (.primary c :: cs) = fallbackCalls cs := rfl

theorem fallbackCalls_cons_fallback (n : String) (cs : List RCall) :
    fallbackCalls (.fallback n :: cs) = n :: fallbackCalls cs := rfl

theorem primaryCalls_cons_primary (c : List String) (cs : List RCall) :
    primaryCalls (.primary c :: cs) = c :: primaryCalls cs := rfl

theorem primaryCalls_cons_fallback (n : String) (cs : List RCall) :
    primaryCalls (.fallback n :: cs) = primaryCalls cs := rfl

theorem fallbackCalls_append (as bs : List RCall) :
    fallbackCalls (as ++ bs) = fallbackCalls as ++ fallbackCalls bs := by
  simp [fallbackCalls]

theorem primaryCalls_append (as bs : List RCall) :
    primaryCalls (as ++ bs) = primaryCalls as ++ primaryCalls bs := by
  simp [primaryCalls]

theorem fallbackCalls_map_fallback (l : List String) :
    fallbackCalls (l.map RCall.fallback) = l := by
  induction l with
  | nil => rfl
  | cons a t ih => simp [fallbackCalls_cons_fallback, ih]

theorem fallbackCalls_map_primary (l : List (List String)) :
    fallbackCalls (l.map RCall.primary) = [] := by
  induction l with
  | nil => rfl
  | cons a t ih => simp [fallbackCalls_cons_primary, ih]

theorem primaryCalls_map_primary (l : List (List String)) :
    primaryCalls (l.map RCall.primary) = l := by
  induction l with
  | nil => rfl
  | cons a t ih => simp [primaryCalls_cons_primary, ih]

theorem primaryCalls_map_fallback (l : List String) :
    primaryCalls (l.map RCall.fallback) = [] := by
  induction l with
  | nil => rfl
  | cons a t ih => simp [primaryCalls_cons_fallback, ih]

theorem chunksFuel_flatten :
    ∀ (fuel : ℕ) (l : List String), l.length ≤ fuel → (chunksFuel fuel l).flatten = l := by
  intro fuel
  induction fuel with
  | zero =>
    intro l hl
    cases l with
    | nil => rfl
    | cons a t => simp at hl
  | succ n ih =>
    intro l hl
    cases l with
    | nil => rfl
    | cons a t =>
      show (List.take 10 (a :: t) :: chunksFuel n (List.drop 10 (a :: t))).flatten = a :: t
      rw [List.flatten_cons, ih _ (by simp only [List.length_drop, List.length_cons]; simp only [List.length_cons] at hl; omega)]
      exact List.take_append_drop 10 (a :: t)

theorem chunksFuel_le :
    ∀ (fuel : ℕ) (l : List String), l.length ≤ fuel → ∀ c ∈ chunksFuel fuel l, c.length ≤ 10 := by
  intro fuel
  induction fuel with
  | zero =>
    intro l hl c hc
    cases l with
    | nil => simp [chunksFuel] at hc
    | cons a t => simp at hl
  | succ n ih =>
    intro l hl c hc
    cases l with
    | nil => simp [chunksFuel] at hc
    | cons a t =>
      simp only [chunksFuel, List.mem_cons] at hc
      rcases hc with rfl | hc
      · simp
      · exact ih _ (by simp only [List.length_drop, List.length_cons]; simp only [List.length_cons] at hl; omega) c hc

theorem hmf_calls (fb : String → FallbackOutcome)
    (hfb : ∀ name, fb name ≠ .gotResp .fail) :
    ∀ (chunk : List String) (acc : List (String × String)),
    (handle_mojang_failure fb chunk acc).1 = chunk.map RCall.fallback ∧
    ∃ acc2, (handle_mojang_failure fb chunk acc).2 = .ok acc2 := by
  intro chunk
  induction chunk with
  | nil => exact fun acc => ⟨rfl, acc, rfl⟩
  | cons n rest ih =>
    intro acc
    cases hf : fb n with
    | transportErr =>
      obtain ⟨h1, acc2, h2⟩ := ih acc
      refine ⟨?_, acc2, ?_⟩ <;> simp [handle_mojang_failure, hf, h1, h2]
    | gotResp p =>
      cases p with
      | fail => exact absurd hf (hfb n)
      | ok pl =>
        obtain ⟨h1, acc2, h2⟩ := ih (insertKV acc pl.id pl.name)
        refine ⟨?_, acc2, ?_⟩ <;> simp [handle_mojang_failure, hf, h1, h2]

theorem runChunks_allOk (prim : ℕ → PrimaryOutcome) (fb : String → FallbackOutcome) :
    ∀ (l : List (List String)) (i : ℕ) (acc : List (String × String)),
    (∀ t, t < l.length → ∃ ps, prim (i + t) = .httpOk (.ok ps)) →
    (runChunks prim fb i l acc).1 = l.map RCall.primary ∧
    ∃ acc2, (runChunks prim fb i l acc).2 = .ok acc2 := by
  intro l
  induction l with
  | nil => exact fun i acc _ => ⟨rfl, acc, rfl⟩
  | cons c rest ih =>
    intro i acc h
    obtain ⟨ps, hps⟩ := h 0 (by simp)
    rw [Nat.add_zero] at hps
    obtain ⟨h1, acc2, h2⟩ := ih (i + 1)
      (ps.foldl (fun acc p => insertKV acc p.id p.name) acc)
      (fun t ht => by
        have := h (t + 1) (by simpa using Nat.succ_lt_succ ht)
        rwa [show i + (t + 1) = i + 1 + t by omega] at this)
    refine ⟨?_, acc2, ?_⟩ <;> simp [runChunks, hps, h1, h2]

theorem runChunks_oneFail (prim : ℕ → PrimaryOutcome) (fb : String → FallbackOutcome)
    (j : ℕ) (hfail : prim j = .httpErr) (hfb : ∀ name, fb name ≠ .gotResp .fail) :
    ∀ (l : List (List String)) (i : ℕ) (acc : List (String × String)), i ≤ j →
    (∀ t, t < l.length → i + t ≠ j → ∃ ps, prim (i + t) = .httpOk (.ok ps)) →
    primaryCalls (runChunks prim fb i l acc).1 = l ∧
    fallbackCalls (runChunks prim fb i l acc).1 = l.getD (j - i) [] := by
  intro l
  induction l with
  | nil =>
    intro i acc _ _
    constructor <;> simp [runChunks, primaryCalls, fallbackCalls]
  | cons c rest ih =>
    intro i acc hij h
    by_cases hi : i = j
    · subst hi
      obtain ⟨hc1, acc2, hc2⟩ := hmf_calls fb hfb c acc
      have hpair : handle_mojang_failure fb c acc = (c.map RCall.fallback, .ok acc2) :=
        Prod.ext hc1 hc2
      have hrest := runChunks_allOk prim fb rest (i + 1) acc2 (fun t ht => by
        have := h (t + 1) (by simpa using Nat.succ_lt_succ ht) (by omega)
        rwa [show i + (t + 1) = i + 1 + t by omega] at this)
      obtain ⟨hr1, _, _⟩ := hrest
      have hrun : (runChunks prim fb i (c :: rest) acc).1 =
          .primary c :: (c.map RCall.fallback ++ rest.map RCall.primary) := by
        simp [runChunks, hfail, hpair, hr1]
      rw [hrun]
      constructor
      · rw [primaryCalls_cons_primary, primaryCalls_append, primaryCalls_map_fallback,
          primaryCalls_map_primary]
        simp
      · rw [fallbackCalls_cons_primary, fallbackCalls_append, fallbackCalls_map_fallback,
          fallbackCalls_map_primary]
        simp
    · have hlt : i < j := lt_of_le_of_ne hij hi
      obtain ⟨ps, hps⟩ := h 0 (by simp) (by simpa using hi)
      rw [Nat.add_zero] at hps
      obtain ⟨h1, h2⟩ := ih (i + 1)
        (ps.foldl (fun acc p => insertKV acc p.id p.name) acc)
        (by omega)
        (fun t ht hne => by
          have := h (t + 1) (by simpa using Nat.succ_lt_succ ht)
            (by rwa [show i + (t + 1) = i + 1 + t by omega])
          rwa [show i + (t + 1) = i + 1 + t by omega] at this)
      have hrun : (runChunks prim fb i (c :: rest) acc).1 =
          .primary c :: (runChunks prim fb (i + 1) rest
            (ps.foldl (fun acc p => insertKV acc p.id p.name) acc)).1 := by
        simp [runChunks, hps]
      rw [hrun]
      constructor
      · rw [primaryCalls_cons_primary, h1]
      · rw [fallbackCalls_cons_primary, h2, show j - i = (j - (i + 1)) + 1 by omega]
        simp

theorem hmf_subset (fb : String → FallbackOutcome) :
    ∀ (chunk : List String) (acc : List (String × String)) (name : String),
    name ∈ fallbackCalls (handle_mojang_failure fb chunk acc).1 → name ∈ chunk := by
  intro chunk
  induction chunk with
  | nil => intro acc name h; simp [handle_mojang_failure, fallbackCalls] at h
  | cons n rest ih =>
    intro acc name h
    cases hf : fb n with
    | transportErr =>
      have hr : (handle_mojang_failure fb (n :: rest) acc).1 =
          .fallback n :: (handle_mojang_failure fb rest acc).1 := by
        simp [handle_mojang_failure, hf]
      rw [hr, fallbackCalls_cons_fallback] at h
      rcases List.mem_cons.mp h with rfl | h
      · exact List.mem_cons_self _ _
      · exact List.mem_cons_of_mem _ (ih acc name h)
    | gotResp p =>
      cases p with
      | fail =>
        have hr : (handle_mojang_failure fb (n :: rest) acc).1 = [.fallback n] := by
          simp [handle_mojang_failure, hf]
        rw [hr, fallbackCalls_cons_fallback] at h
        rcases List.mem_cons.mp h with rfl | h
        · exact List.mem_cons_self _ _
        · simp [fallbackCalls] at h
      | ok pl =>
        have hr : (handle_mojang_failure fb (n :: rest) acc).1 =
            .fallback n :: (handle_mojang_failure fb rest (insertKV acc pl.id pl.name)).1 := by
          simp [handle_mojang_failure, hf]
        rw [hr, fallbackCalls_cons_fallback] at h
        rcases List.mem_cons.mp h with rfl | h
        · exact List.mem_cons_self _ _
        · exact List.mem_cons_of_mem _ (ih _ name h)

theorem runChunks_fallback_mem (prim : ℕ → PrimaryOutcome) (fb : String → FallbackOutcome) :
    ∀ (l : List (List String)) (i : ℕ) (acc : List (String × String)) (name : String),
    name ∈ fallbackCalls (runChunks prim fb i l acc).1 →
    ∃ t, t < l.length ∧ prim (i + t) = .httpErr ∧ name ∈ l.getD t [] := by
  intro l
  induction l with
  | nil => intro i acc name h; simp [runChunks, fallbackCalls] at h
  | cons c rest ih =>
    intro i acc name h
    cases hp : prim i with
    | transportErr =>
      have hr : (runChunks prim fb i (c :: rest) acc).1 =
          .primary c :: (runChunks prim fb (i + 1) rest acc).1 := by
        simp [runChunks, hp]
      rw [hr, fallbackCalls_cons_primary] at h
      obtain ⟨t, ht, hpt, hmem⟩ := ih (i + 1) acc name h
      exact ⟨t + 1, by simpa using Nat.succ_lt_succ ht,
        by rwa [show i + (t + 1) = i + 1 + t by omega], by simpa using hmem⟩
    | httpErr =>
      rcases hmf : handle_mojang_failure fb c acc with ⟨calls, res⟩
      cases res with
      | ok acc2 =>
        have hr : (runChunks prim fb i (c :: rest) acc).1 =
            .primary c :: (calls ++ (runChunks prim fb (i + 1) rest acc2).1) := by
          simp [runChunks, hp, hmf]
        rw [hr, fallbackCalls_cons_primary, fallbackCalls_append] at h
        rcases List.mem_append.mp h with h | h
        · refine ⟨0, by simp, by simpa using hp, ?_⟩
          have := hmf_subset fb c acc name (by rw [hmf]; exact h)
          simpa using this
        · obtain ⟨t, ht, hpt, hmem⟩ := ih (i + 1) acc2 name h
          exact ⟨t + 1, by simpa using Nat.succ_lt_succ ht,
            by rwa [show i + (t + 1) = i + 1 + t by omega], by simpa using hmem⟩
      | error e =>
        have hr : (runChunks prim fb i (c :: rest) acc).1 = .primary c :: calls := by
          simp [runChunks, hp, hmf]
        rw [hr, fallbackCalls_cons_primary] at h
        refine ⟨0, by simp, by simpa using hp, ?_⟩
        have := hmf_subset fb c acc name (by rw [hmf]; exact h)
        simpa using this
    | httpOk p =>
      cases p with
      | fail =>
        have hr : (runChunks prim fb i (c :: rest) acc).1 = [.primary c] := by
          simp [runChunks, hp]
        rw [hr, fallbackCalls_cons_primary] at h
        simp [fallbackCalls] at h
      | ok ps =>
        have hr : (runChunks prim fb i (c :: rest) acc).1 =
            .primary c :: (runChunks prim fb (i + 1) rest
              (ps.foldl (fun acc p => insertKV acc p.id p.name) acc)).1 := by
          simp [runChunks, hp]
        rw [hr, fallbackCalls_cons_primary] at h
        obtain ⟨t, ht, hpt, hmem⟩ := ih (i + 1) _ name h
        exact ⟨t + 1, by simpa using Nat.succ_lt_succ ht,
          by rwa [show i + (t + 1) = i + 1 + t by omega], by simpa using hmem⟩

theorem runChunks_allTransport (prim : ℕ → PrimaryOutcome) (fb : String → FallbackOutcome)
    (hp : ∀ i, prim i = .transportErr) :
    ∀ (l : List (List String)) (i : ℕ) (acc : List (String × String)),
    runChunks prim fb i l acc = (l.map RCall.primary, .ok acc) := by
  intro l
  induction l with
  | nil => intro i acc; rfl
  | cons c rest ih =>
    intro i acc
    simp [runChunks, hp i, ih (i + 1) acc]

/-- C2 counterexample: 11 names (two chunks, sizes 10 and 1); the first chunk
is the only one whose primary call returns a non-success status, yet because
the fallback response of its first name fails to deserialize, only one
fallback call is issued for that chunk of 10 names, and the primary call for
the second chunk is never issued at all. -/
theorem c2_counterexample :
    primCex 0 = .httpErr ∧
    (∀ i, i < (chunks10 names11).length → i ≠ 0 → primCex i = .httpOk (.ok [])) ∧
    ((chunks10 names11).getD 0 []).length = 10 ∧
    (fallbackCalls (get_player_uuids primCex fbCex names11).1).length = 1 ∧
    primaryCalls (get_player_uuids primCex fbCex names11).1 =
      [(chunks10 names11).getD 0 []] := by
  refine ⟨by decide, by decide, by decide, by decide, by decide⟩

/-- C2 (amended): for every input name sequence, resolution partitions the
names in order into consecutive batches of at most 10; provided no response
body fails to deserialize, when exactly one batch's primary call returns a
non-success status the resolver issues every primary batch call in order and
exactly one fallback single-name call per name of the failing batch, and none
for the other batches. -/
theorem c2_batch_partition_amended (names : List String) (prim : ℕ → PrimaryOutcome)
    (fb : String → FallbackOutcome) (j : ℕ)
    (hfail : prim j = .httpErr)
    (hok : ∀ i, i < (chunks10 names).length → i ≠ j → ∃ ps, prim i = .httpOk (.ok ps))
    (hfb : ∀ name, fb name ≠ .gotResp .fail) :
    (chunks10 names).flatten = names ∧
    (∀ c ∈ chunks10 names, c.length ≤ 10) ∧
    primaryCalls (get_player_uuids prim fb names).1 = chunks10 names ∧
    fallbackCalls (get_player_uuids prim fb names).1 = (chunks10 names).getD j [] := by
  have hmain := runChunks_oneFail prim fb j hfail hfb (chunks10 names) 0 []
    (Nat.zero_le j)
    (fun t ht hne => by simpa using hok t ht (by simpa using hne))
  refine ⟨chunksFuel_flatten _ _ le_rfl, chunksFuel_le _ _ le_rfl, ?_, ?_⟩
  · simpa [get_player_uuids] using hmain.1
  · simpa [get_player_uuids] using hmain.2

/-- Witness for the amended C2: 25 identical names partition into batches of
sizes 10, 10, 5; with the second batch failing with a non-success status, all
three primary calls are issued and exactly the 10 names of the second batch
get fallback calls. -/
theorem c2_batch_partition_amended_witness :
    (chunks10 names25).map List.length = [10, 10, 5] ∧
    primaryCalls (get_player_uuids primW fbW names25).1 = chunks10 names25 ∧
    fallbackCalls (get_player_uuids primW fbW names25).1 = List.replicate 10 "a" := by
  have h := c2_batch_partition_amended names25 primW fbW 1 (by decide)
    (fun i hi hne => ⟨[], by simp [primW, hne]⟩) (fun name => by simp [fbW])
  exact ⟨by decide, h.2.2.1, by rw [h.2.2.2]; decide⟩

/-- C3 counterexample: a single batch whose primary call fails at the
transport level issues no fallback call at all (even though the fallback
oracle would resolve the name) and contributes nothing to the result. -/
theorem c3_counterexample :
    primT 0 = .transportErr ∧
    get_player_uuids primT fbOk ["c"] = ([.primary ["c"]], .ok []) ∧
    fallbackCalls [RCall.primary ["c"]] = [] := by
  refine ⟨by decide, by decide, by decide⟩

/-- C3 (amended): a fallback single-name call is only ever issued for a name
of a batch whose primary call returned a non-success status, never for a
batch whose primary call failed at the transport level; in particular, when
every primary call fails at the transport level, the resolver issues only the
primary calls and returns an empty mapping. -/
theorem c3_transport_no_fallback_amended (names : List String)
    (prim : ℕ → PrimaryOutcome) (fb : String → FallbackOutcome) :
    (∀ name, name ∈ fallbackCalls (get_player_uuids prim fb names).1 →
      ∃ t, t < (chunks10 names).length ∧ prim t = .httpErr ∧
        name ∈ (chunks10 names).getD t []) ∧
    ((∀ i, prim i = .transportErr) →
      get_player_uuids prim fb names = ((chunks10 names).map RCall.primary, .ok [])) := by
  constructor
  · intro name h
    have := runChunks_fallback_mem prim fb (chunks10 names) 0 [] name
      (by simpa [get_player_uuids] using h)
    simpa using this
  · intro hp
    simpa [get_player_uuids] using runChunks_allTransport prim fb hp (chunks10 names) 0 []

/-- Witness for the amended C3: with a primary oracle that always returns a
non-success status, the single issued fallback call for the one name is
attributed to a batch with a non-success status. -/
theorem c3_transport_no_fallback_amended_witness :
    ∃ t, t < (chunks10 ["d"]).length ∧ primH t = .httpErr ∧
      "d" ∈ (chunks10 ["d"]).getD t [] :=
  (c3_transport_no_fallback_amended ["d"] primH fbOk).1 "d" (by decide)

/-! Properties of round to nearest, ties to even. -/

theorem two_zpow_pos (e : ℤ) : (0:ℚ) < 2 ^ e := zpow_pos (by norm_num) e

theorem rhe_nearest (n : ℚ) (m : ℤ) : |n - (rhe n : ℚ)| ≤ |n - (m : ℚ)| := by
  have h1 : (⌊n⌋ : ℚ) ≤ n := Int.floor_le n
  have h2 : n < ⌊n⌋ + 1 := Int.lt_floor_add_one n
  have hm : (m : ℚ) ≤ (⌊n⌋ : ℚ) ∨ (⌊n⌋ : ℚ) + 1 ≤ (m : ℚ) := by
    rcases le_or_lt m ⌊n⌋ with h | h
    · exact Or.inl (by exact_mod_cast h)
    · exact Or.inr (by exact_mod_cast h)
  unfold rhe
  split_ifs with ha hb hc
  · rw [abs_of_nonneg (by linarith)]
    rcases hm with hm | hm
    · exact le_abs.mpr (Or.inl (by linarith))
    · exact le_abs.mpr (Or.inr (by linarith))
  · rw [show ((⌊n⌋ + 1 : ℤ) : ℚ) = (⌊n⌋ : ℚ) + 1 by push_cast; ring,
      abs_of_nonpos (by linarith)]
    rcases hm with hm | hm
    · exact le_abs.mpr (Or.inl (by linarith))
    · exact le_abs.mpr (Or.inr (by linarith))
  · have heq : n - ⌊n⌋ = 1 / 2 := by push_neg at ha hb; linarith
    rw [abs_of_nonneg (by linarith)]
    rcases hm with hm | hm
    · exact le_abs.mpr (Or.inl (by linarith))
    · exact le_abs.mpr (Or.inr (by linarith))
  · have heq : n - ⌊n⌋ = 1 / 2 := by push_neg at ha hb; linarith
    rw [show ((⌊n⌋ + 1 : ℤ) : ℚ) = (⌊n⌋ : ℚ) + 1 by push_cast; ring,
      abs_of_nonpos (by linarith)]
    rcases hm with hm | hm
    · exact le_abs.mpr (Or.inl (by linarith))
    · exact le_abs.mpr (Or.inr (by linarith))

theorem rhe_nonneg (n : ℚ) (h : 0 ≤ n) : 0 ≤ rhe n := by
  have hf : 0 ≤ ⌊n⌋ := Int.floor_nonneg.mpr h
  unfold rhe
  split_ifs <;> omega

theorem rhe_le_of_lt (n : ℚ) (N : ℤ) (h : n < N) : rhe n ≤ N := by
  have hf : ⌊n⌋ < N := Int.floor_lt.mpr h
  unfold rhe
  split_ifs with ha hb
  · omega
  · omega
  · -- tie case with even floor: rhe = floor
    omega
  · -- tie case rounding up: need floor + 1 ≤ N, i.e. floor < N; but the tie
    -- n - floor = 1/2 gives n > floor, and n < N with N integer forces
    -- floor + 1 ≤ N unless n is within (N-1, N); then floor = N - 1 and
    -- floor + 1 = N.
    omega

theorem f32exp_ge (q : ℚ) : -126 ≤ f32exp q := le_max_right _ _

theorem f32scale_ge (q : ℚ) : -149 ≤ f32scale q := by
  have := f32exp_ge q
  unfold f32scale
  omega

theorem lt_zpow_f32exp_succ (q : ℚ) (_hq : 0 < q) : q < 2 ^ (f32exp q + 1) := by
  have h1 : q < 2 ^ (Int.log 2 q + 1) := Int.lt_zpow_succ_log_self (by norm_num) q
  have h2 : (2:ℚ) ^ (Int.log 2 q + 1) ≤ 2 ^ (f32exp q + 1) :=
    zpow_le_zpow_right₀ (by norm_num) (by have := le_max_left (Int.log 2 q) (-126); unfold f32exp; omega)
  linarith

theorem rnd32pos_grid (q : ℚ) (k : ℤ) :
    |q - rnd32pos q| ≤ |q - (k : ℚ) * 2 ^ f32scale q| := by
  have hp : (0:ℚ) < 2 ^ f32scale q := two_zpow_pos _
  have hno : (2:ℚ) ^ f32scale q ≠ 0 := ne_of_gt hp
  have h1 : q - rnd32pos q =
      (q / 2 ^ f32scale q - (rhe (q / 2 ^ f32scale q) : ℚ)) * 2 ^ f32scale q := by
    unfold rnd32pos
    rw [sub_mul, div_mul_cancel₀ _ hno]
  have h2 : q - (k : ℚ) * 2 ^ f32scale q =
      (q / 2 ^ f32scale q - (k : ℚ)) * 2 ^ f32scale q := by
    rw [sub_mul, div_mul_cancel₀ _ hno]
  rw [h1, h2, abs_mul, abs_mul, abs_of_pos hp]
  exact mul_le_mul_of_nonneg_right (rhe_nearest _ _) hp.le

theorem isF32_cases (q s : ℚ) (hq : 0 < q) (hs : isF32 s) :
    (∃ k : ℤ, s = (k : ℚ) * 2 ^ f32scale q) ∨
    (|s| < 2 ^ f32exp q ∧ 2 ^ f32exp q ≤ q) := by
  obtain ⟨m, d, hm, hd, rfl⟩ := hs
  rcases le_or_lt (f32scale q) d with h | h
  · left
    refine ⟨m * 2 ^ (d - f32scale q).toNat, ?_⟩
    have htn : ((d - f32scale q).toNat : ℤ) = d - f32scale q := Int.toNat_of_nonneg (by omega)
    push_cast
    rw [← zpow_natCast (2:ℚ) (d - f32scale q).toNat, mul_assoc,
      ← zpow_add₀ (by norm_num : (2:ℚ) ≠ 0),
      show ((d - f32scale q).toNat : ℤ) + f32scale q = d by omega]
  · have hclamp : f32exp q = Int.log 2 q := by
      rcases le_or_lt (Int.log 2 q) (-126) with hl | hl
      · exfalso
        have : f32exp q = -126 := max_eq_right hl
        unfold f32scale at h
        omega
      · exact max_eq_left hl.le
    refine Or.inr ⟨?_, ?_⟩
    · have habs : |(m : ℚ) * 2 ^ d| = (m.natAbs : ℚ) * 2 ^ d := by
        rw [abs_mul, abs_of_pos (two_zpow_pos d), Int.cast_natAbs, Int.cast_abs]
      rw [habs]
      have hb1 : (m.natAbs : ℚ) * 2 ^ d < (2:ℚ) ^ (24:ℤ) * 2 ^ d := by
        have hcast : (m.natAbs : ℚ) < (2:ℚ) ^ (24:ℤ) := by
          have hx1 : (m.natAbs : ℚ) < ((2 ^ 24 : ℕ) : ℚ) := by exact_mod_cast hm
          have hx2 : ((2 ^ 24 : ℕ) : ℚ) = (2:ℚ) ^ (24:ℤ) := by norm_num
          linarith
        exact mul_lt_mul_of_pos_right hcast (two_zpow_pos d)
      have hb2 : (2:ℚ) ^ (24:ℤ) * 2 ^ d ≤ (2:ℚ) ^ (24:ℤ) * 2 ^ (f32scale q - 1) := by
        have := zpow_le_zpow_right₀ (by norm_num : (1:ℚ) ≤ 2) (by omega : d ≤ f32scale q - 1)
        exact mul_le_mul_of_nonneg_left this (by positivity)
      have hb3 : (2:ℚ) ^ (24:ℤ) * 2 ^ (f32scale q - 1) = 2 ^ f32exp q := by
        rw [← zpow_add₀ (by norm_num : (2:ℚ) ≠ 0)]
        congr 1
        unfold f32scale
        ring
      linarith
    · rw [hclamp]
      exact Int.zpow_log_le_self (by norm_num) hq

theorem rnd32_eq_pos (q : ℚ) (hq : 0 < q) : rnd32 q = rnd32pos q := by
  unfold rnd32
  rw [if_neg (ne_of_gt hq), if_neg (not_lt.mpr hq.le)]

theorem isF32_zero : isF32 0 := ⟨0, 0, by norm_num, by norm_num, by norm_num⟩

theorem rnd32_nearest (q : ℚ) (hq : 0 ≤ q) (s : ℚ) (hs : isF32 s) :
    |q - rnd32 q| ≤ |q - s| := by
  rcases eq_or_lt_of_le hq with h | h
  · rw [← h]
    simp [rnd32]
  · rw [rnd32_eq_pos q h]
    rcases isF32_cases q s h hs with ⟨k, rfl⟩ | ⟨hlt, hle⟩
    · exact rnd32pos_grid q k
    · have hgrid := rnd32pos_grid q (2 ^ 23)
      have hid : ((2 ^ 23 : ℤ) : ℚ) * 2 ^ f32scale q = 2 ^ f32exp q := by
        rw [show ((2 ^ 23 : ℤ) : ℚ) = (2:ℚ) ^ (23:ℤ) by norm_num,
          ← zpow_add₀ (by norm_num : (2:ℚ) ≠ 0),
          show (23:ℤ) + f32scale q = f32exp q by unfold f32scale; ring]
      rw [hid] at hgrid
      have h1 : s ≤ |s| := le_abs_self s
      calc |q - rnd32pos q| ≤ |q - 2 ^ f32exp q| := hgrid
        _ = q - 2 ^ f32exp q := abs_of_nonneg (by linarith)
        _ ≤ q - s := by linarith
        _ ≤ |q - s| := le_abs_self _

theorem isF32_rnd32 (q : ℚ) (hq : 0 ≤ q) : isF32 (rnd32 q) := by
  rcases eq_or_lt_of_le hq with h | h
  · rw [← h]
    simpa [rnd32] using isF32_zero
  · rw [rnd32_eq_pos q h]
    unfold rnd32pos
    have hnpos : 0 ≤ q / 2 ^ f32scale q := le_of_lt (by positivity)
    have hub : q / 2 ^ f32scale q < ((2 ^ 24 : ℤ) : ℚ) := by
      rw [div_lt_iff₀ (two_zpow_pos _)]
      have hq2 : q < 2 ^ (f32exp q + 1) := lt_zpow_f32exp_succ q h
      have : ((2 ^ 24 : ℤ) : ℚ) * 2 ^ f32scale q = 2 ^ (f32exp q + 1) := by
        rw [show ((2 ^ 24 : ℤ) : ℚ) = (2:ℚ) ^ (24:ℤ) by norm_num,
          ← zpow_add₀ (by norm_num : (2:ℚ) ≠ 0),
          show (24:ℤ) + f32scale q = f32exp q + 1 by unfold f32scale; ring]
      linarith
    have h1 : rhe (q / 2 ^ f32scale q) ≤ 2 ^ 24 := rhe_le_of_lt _ _ hub
    have h0 : 0 ≤ rhe (q / 2 ^ f32scale q) := rhe_nonneg _ hnpos
    rcases eq_or_lt_of_le h1 with he | hlt
    · refine ⟨2 ^ 23, f32scale q + 1, by norm_num, by have := f32scale_ge q; omega, ?_⟩
      rw [he]
      push_cast
      rw [zpow_add_one₀ (by norm_num : (2:ℚ) ≠ 0)]
      ring
    · exact ⟨rhe (q / 2 ^ f32scale q), f32scale q, by omega, f32scale_ge q, rfl⟩

theorem rnd32_nonneg (q : ℚ) (hq : 0 ≤ q) : 0 ≤ rnd32 q := by
  rcases eq_or_lt_of_le hq with h | h
  · rw [← h]
    simp [rnd32]
  · rw [rnd32_eq_pos q h]
    unfold rnd32pos
    have := rhe_nonneg (q / 2 ^ f32scale q) (le_of_lt (by positivity))
    exact mul_nonneg (by exact_mod_cast this) (two_zpow_pos _).le

theorem rnd32_mono {x y : ℚ} (hx : 0 ≤ x) (hxy : x ≤ y) : rnd32 x ≤ rnd32 y := by
  by_contra hcon
  push_neg at hcon
  have hy : 0 ≤ y := hx.trans hxy
  have ha := isF32_rnd32 x hx
  have hb := isF32_rnd32 y hy
  have h1 := rnd32_nearest x hx _ hb
  have h2 := rnd32_nearest y hy _ ha
  have s1 : (x - rnd32 x) ^ 2 ≤ (x - rnd32 y) ^ 2 := by
    have := mul_self_le_mul_self (abs_nonneg (x - rnd32 x)) h1
    rwa [abs_mul_abs_self, abs_mul_abs_self, ← sq, ← sq] at this
  have s2 : (y - rnd32 y) ^ 2 ≤ (y - rnd32 x) ^ 2 := by
    have := mul_self_le_mul_self (abs_nonneg (y - rnd32 y)) h2
    rwa [abs_mul_abs_self, abs_mul_abs_self, ← sq, ← sq] at this
  have hab1 : rnd32 x + rnd32 y ≤ 2 * x := by nlinarith
  have hab2 : 2 * y ≤ rnd32 x + rnd32 y := by nlinarith
  have hxy2 : x = y := le_antisymm hxy (by linarith)
  rw [hxy2] at hcon
  exact lt_irrefl _ hcon

theorem isF32_neg {q : ℚ} (h : isF32 q) : isF32 (-q) := by
  obtain ⟨m, e, hm, he, rfl⟩ := h
  exact ⟨-m, e, by simpa using hm, he, by push_cast; ring⟩

theorem rnd32_neg (q : ℚ) : rnd32 (-q) = -rnd32 q := by
  rcases lt_trichotomy q 0 with h | h | h
  · have h1 : (0:ℚ) < -q := by linarith
    rw [rnd32_eq_pos (-q) h1]
    unfold rnd32
    rw [if_neg (ne_of_lt h), if_pos h, neg_neg]
  · rw [h]
    simp [rnd32]
  · have h1 : -q < 0 := by linarith
    rw [rnd32_eq_pos q h]
    unfold rnd32
    rw [if_neg (ne_of_lt h1), if_pos h1, neg_neg]

theorem rnd32_id (q : ℚ) (h : isF32 q) : rnd32 q = q := by
  have key : ∀ r : ℚ, 0 ≤ r → isF32 r → rnd32 r = r := by
    intro r hr hrF
    have h1 := rnd32_nearest r hr r hrF
    rw [sub_self, abs_zero] at h1
    have h2 : |r - rnd32 r| = 0 := le_antisymm h1 (abs_nonneg _)
    have := abs_eq_zero.mp h2
    linarith
  rcases le_or_lt 0 q with hq | hq
  · exact key q hq h
  · have h1 : rnd32 (-q) = -q := key (-q) (by linarith) (isF32_neg h)
    have h2 := rnd32_neg q
    rw [h1] at h2
    linarith

/-! Properties of the correctly rounded f32 square root. -/

theorem int_log_two_bounds (v : ℚ) (hv : isF32 v) (h0 : 0 < v) :
    2 * (Int.log 2 v / 2) ≤ Int.log 2 v ∧
    Int.log 2 v ≤ 2 * (Int.log 2 v / 2) + 1 ∧
    -149 ≤ Int.log 2 v := by
  obtain ⟨m, d, hm, hd, rfl⟩ := hv
  have hm1 : 1 ≤ m := by
    by_contra hc
    push_neg at hc
    have : (m:ℚ) * 2 ^ d ≤ 0 := by
      have : (m:ℚ) ≤ 0 := by exact_mod_cast by omega
      exact mul_nonpos_of_nonpos_of_nonneg this (two_zpow_pos d).le
    linarith
  have hlow : (2:ℚ) ^ (-149 : ℤ) ≤ (m:ℚ) * 2 ^ d := by
    have h1 : (2:ℚ) ^ (-149:ℤ) ≤ 2 ^ d := zpow_le_zpow_right₀ (by norm_num) hd
    have h2 : (1:ℚ) * 2 ^ d ≤ (m:ℚ) * 2 ^ d := by
      have : (1:ℚ) ≤ (m:ℚ) := by exact_mod_cast hm1
      exact mul_le_mul_of_nonneg_right this (two_zpow_pos d).le
    linarith
  have hlog : -149 ≤ Int.log 2 ((m:ℚ) * 2 ^ d) :=
    (Int.zpow_le_iff_le_log (by norm_num) h0).mp hlow
  omega

theorem nearest_int_real (u : ℝ) (k : ℤ) (k2 : ℤ)
    (hk2 : (k2 = k ∧ (k:ℝ) ≤ u ∧ u < k + 1 / 2) ∨
           (k2 = k + 1 ∧ (k:ℝ) + 1 / 2 < u ∧ u < k + 1)) :
    ∀ j : ℤ, |u - (k2:ℝ)| ≤ |u - (j:ℝ)| := by
  intro j
  have hj : (j : ℝ) ≤ (k:ℝ) ∨ (k:ℝ) + 1 ≤ (j:ℝ) := by
    rcases le_or_lt j k with h | h
    · exact Or.inl (by exact_mod_cast h)
    · exact Or.inr (by exact_mod_cast h)
  rcases hk2 with ⟨rfl, hu1, hu2⟩ | ⟨rfl, hu1, hu2⟩
  · rw [abs_of_nonneg (by linarith)]
    rcases hj with hj | hj
    · exact le_abs.mpr (Or.inl (by linarith))
    · exact le_abs.mpr (Or.inr (by linarith))
  · rw [show ((k + 1 : ℤ) : ℝ) = (k:ℝ) + 1 by push_cast; ring,
      abs_of_nonpos (by linarith)]
    rcases hj with hj | hj
    · exact le_abs.mpr (Or.inl (by linarith))
    · exact le_abs.mpr (Or.inr (by linarith))

theorem sqrt32_W_spec (v : ℚ) (hv : isF32 v) (h0 : 0 < v) :
    (((⌊v * 2 ^ (46 - 2 * (Int.log 2 v / 2))⌋).toNat : ℚ))
      = v * 2 ^ (46 - 2 * (Int.log 2 v / 2)) := by
  obtain ⟨hf1, hf2, hf3⟩ := int_log_two_bounds v hv h0
  set L := Int.log 2 v with hL
  obtain ⟨m, d, hm, hd, hvmd⟩ := hv
  have hm1 : 1 ≤ m := by
    by_contra hc
    push_neg at hc
    have : (m:ℚ) * 2 ^ d ≤ 0 := by
      have : (m:ℚ) ≤ 0 := by exact_mod_cast by omega
      exact mul_nonpos_of_nonpos_of_nonneg this (two_zpow_pos d).le
    rw [hvmd] at h0
    linarith
  have hloglt : L < 24 + d := by
    rw [hL, ← Int.lt_zpow_iff_log_lt (by norm_num) h0]
    rw [hvmd]
    have h1 : (m:ℚ) < (2:ℚ) ^ (24:ℤ) := by
      have hx1 : (m:ℚ) < ((2 ^ 24 : ℕ) : ℚ) := by
        have : m < (2:ℤ) ^ 24 := by omega
        exact_mod_cast this
      have hx2 : ((2 ^ 24 : ℕ) : ℚ) = (2:ℚ) ^ (24:ℤ) := by norm_num
      linarith
    calc (m:ℚ) * 2 ^ d < (2:ℚ) ^ (24:ℤ) * 2 ^ d :=
          mul_lt_mul_of_pos_right h1 (two_zpow_pos d)
      _ = 2 ^ (24 + d) := by rw [← zpow_add₀ (by norm_num : (2:ℚ) ≠ 0)]
  -- the scaled value is the integer m * 2 ^ (d + 46 - 2 * (log/2))
  have hE : (0:ℤ) ≤ d + (46 - 2 * (L / 2)) := by omega
  have hint : v * 2 ^ (46 - 2 * (L / 2))
      = ((m * 2 ^ (d + (46 - 2 * (L / 2))).toNat : ℤ) : ℚ) := by
    rw [hvmd]
    push_cast
    rw [← zpow_natCast (2:ℚ) (d + (46 - 2 * (L / 2))).toNat,
      show ((d + (46 - 2 * (L / 2))).toNat : ℤ)
        = d + (46 - 2 * (L / 2)) from Int.toNat_of_nonneg hE,
      mul_assoc, ← zpow_add₀ (by norm_num : (2:ℚ) ≠ 0)]
  rw [hint]
  have hpos : (0:ℤ) ≤ m * 2 ^ (d + (46 - 2 * (L / 2))).toNat := by positivity
  rw [Int.floor_intCast]
  exact_mod_cast Int.toNat_of_nonneg hpos

theorem sqrt_nearest_aux (v : ℚ) (f : ℤ) (W : ℕ)
    (hW : (W : ℚ) = v * 2 ^ (46 - 2 * f))
    (hlow : (2:ℚ) ^ (2 * f) ≤ v) (s : ℚ) (hs : isF32 s) :
    |Real.sqrt (v:ℝ) -
        (((if (2 * Nat.sqrt W + 1) ^ 2 ≤ 4 * W then Nat.sqrt W + 1 else Nat.sqrt W : ℕ) : ℝ)
          * (2:ℝ) ^ (f - 23))| ≤
      |Real.sqrt (v:ℝ) - ((s : ℚ) : ℝ)| := by
  have ht : (0:ℝ) < (2:ℝ) ^ (f - 23) := by positivity
  have hvW : (v:ℝ) = (W:ℝ) * ((2:ℝ) ^ (f - 23)) ^ 2 := by
    have hq : (v:ℚ) = (W:ℚ) * ((2:ℚ) ^ (f - 23)) ^ 2 := by
      rw [hW, show ((2:ℚ) ^ (f - 23)) ^ 2 = (2:ℚ) ^ (2 * f - 46) by
        rw [← zpow_natCast ((2:ℚ) ^ (f - 23)) 2, ← zpow_mul]
        congr 1
        ring]
      rw [mul_assoc, ← zpow_add₀ (by norm_num : (2:ℚ) ≠ 0),
        show 46 - 2 * f + (2 * f - 46) = 0 by ring, zpow_zero, mul_one]
    have hq2 : ((v:ℚ):ℝ) = (((W:ℚ) * ((2:ℚ) ^ (f - 23)) ^ 2 : ℚ) : ℝ) := by rw [hq]
    push_cast at hq2
    exact hq2
  have hsqv : Real.sqrt (v:ℝ) = Real.sqrt (W:ℝ) * (2:ℝ) ^ (f - 23) := by
    rw [hvW, Real.sqrt_mul (by positivity) _, Real.sqrt_sq ht.le]
  have hk1 : ((Nat.sqrt W : ℕ) : ℝ) ≤ Real.sqrt (W:ℝ) := by
    rw [Real.le_sqrt (by positivity) (by positivity)]
    exact_mod_cast Nat.sqrt_le' W
  have hk2 : Real.sqrt (W:ℝ) < ((Nat.sqrt W : ℕ) : ℝ) + 1 := by
    rw [Real.sqrt_lt' (by positivity)]
    have := Nat.lt_succ_sqrt' W
    exact_mod_cast this
  have hW4 : ¬ (4 * W = (2 * Nat.sqrt W + 1) ^ 2) := by
    intro hq
    have hsq : (2 * Nat.sqrt W + 1) ^ 2 = 4 * (Nat.sqrt W * Nat.sqrt W + Nat.sqrt W) + 1 := by
      ring
    rw [hsq] at hq
    omega
  have hnear : ∀ j : ℤ,
      |Real.sqrt (W:ℝ) -
          (((if (2 * Nat.sqrt W + 1) ^ 2 ≤ 4 * W then Nat.sqrt W + 1 else Nat.sqrt W : ℕ) : ℝ))| ≤
        |Real.sqrt (W:ℝ) - (j:ℝ)| := by
    intro j
    by_cases hbr : (2 * Nat.sqrt W + 1) ^ 2 ≤ 4 * W
    · have hstrict : (2 * Nat.sqrt W + 1) ^ 2 < 4 * W :=
        lt_of_le_of_ne hbr (fun he => hW4 he.symm)
      have hmid : ((Nat.sqrt W : ℕ) : ℝ) + 1 / 2 < Real.sqrt (W:ℝ) := by
        rw [Real.lt_sqrt (by positivity)]
        have hcast : (((2 * Nat.sqrt W + 1) ^ 2 : ℕ) : ℝ) < ((4 * W : ℕ) : ℝ) := by
          exact_mod_cast hstrict
        push_cast at hcast
        nlinarith
      rw [if_pos hbr]
      have hres := nearest_int_real (Real.sqrt (W:ℝ)) (Nat.sqrt W : ℤ) ((Nat.sqrt W : ℤ) + 1)
        (Or.inr ⟨rfl, by exact_mod_cast hmid, by exact_mod_cast hk2⟩) j
      have hc1 : (((Nat.sqrt W : ℤ) + 1 : ℤ) : ℝ) = ((Nat.sqrt W + 1 : ℕ) : ℝ) := by push_cast; ring
      rw [hc1] at hres
      exact hres
    · have hlt : 4 * W < (2 * Nat.sqrt W + 1) ^ 2 := by omega
      have hmid : Real.sqrt (W:ℝ) < ((Nat.sqrt W : ℕ) : ℝ) + 1 / 2 := by
        rw [Real.sqrt_lt' (by positivity)]
        have hcast : ((4 * W : ℕ) : ℝ) < (((2 * Nat.sqrt W + 1) ^ 2 : ℕ) : ℝ) := by
          exact_mod_cast hlt
        push_cast at hcast
        nlinarith
      rw [if_neg hbr]
      have hres := nearest_int_real (Real.sqrt (W:ℝ)) (Nat.sqrt W : ℤ) (Nat.sqrt W : ℤ)
        (Or.inl ⟨rfl, by exact_mod_cast hk1, by exact_mod_cast hmid⟩) j
      have hc1 : (((Nat.sqrt W : ℤ) : ℤ) : ℝ) = ((Nat.sqrt W : ℕ) : ℝ) := by push_cast; ring
      rw [hc1] at hres
      exact hres
  have hgrid : ∀ j : ℤ,
      |Real.sqrt (v:ℝ) -
          (((if (2 * Nat.sqrt W + 1) ^ 2 ≤ 4 * W then Nat.sqrt W + 1 else Nat.sqrt W : ℕ) : ℝ)
            * (2:ℝ) ^ (f - 23))| ≤
        |Real.sqrt (v:ℝ) - (j:ℝ) * (2:ℝ) ^ (f - 23)| := by
    intro j
    rw [hsqv,
      show Real.sqrt (W:ℝ) * (2:ℝ) ^ (f - 23) -
          (((if (2 * Nat.sqrt W + 1) ^ 2 ≤ 4 * W then Nat.sqrt W + 1 else Nat.sqrt W : ℕ) : ℝ)
            * (2:ℝ) ^ (f - 23)) =
        (Real.sqrt (W:ℝ) -
          ((if (2 * Nat.sqrt W + 1) ^ 2 ≤ 4 * W then Nat.sqrt W + 1 else Nat.sqrt W : ℕ) : ℝ))
          * (2:ℝ) ^ (f - 23) by ring,
      show Real.sqrt (W:ℝ) * (2:ℝ) ^ (f - 23) - (j:ℝ) * (2:ℝ) ^ (f - 23) =
        (Real.sqrt (W:ℝ) - (j:ℝ)) * (2:ℝ) ^ (f - 23) by ring,
      abs_mul, abs_mul, abs_of_pos ht]
    exact mul_le_mul_of_nonneg_right (hnear j) ht.le
  obtain ⟨m, d, hm, hd, rfl⟩ := hs
  rcases le_or_lt (f - 23) d with hcase | hcase
  · have hpt : (((m * 2 ^ (d - (f - 23)).toNat : ℤ) : ℝ)) * (2:ℝ) ^ (f - 23) =
        (((m : ℚ) * 2 ^ d : ℚ) : ℝ) := by
      push_cast
      rw [← zpow_natCast (2:ℝ) (d - (f - 23)).toNat,
        show ((d - (f - 23)).toNat : ℤ) = d - (f - 23) from Int.toNat_of_nonneg (by omega),
        mul_assoc, ← zpow_add₀ (by norm_num : (2:ℝ) ≠ 0),
        show d - (f - 23) + (f - 23) = d by ring]
    have := hgrid (m * 2 ^ (d - (f - 23)).toNat)
    rw [hpt] at this
    exact this
  · have hsb : |((m : ℚ) * 2 ^ d : ℚ)| < (2:ℚ) ^ f := by
      have habs : |(m : ℚ) * 2 ^ d| = (m.natAbs : ℚ) * 2 ^ d := by
        rw [abs_mul, abs_of_pos (two_zpow_pos d), Int.cast_natAbs, Int.cast_abs]
      rw [habs]
      have hb1 : (m.natAbs : ℚ) * 2 ^ d < (2:ℚ) ^ (24:ℤ) * 2 ^ d := by
        have hcast : (m.natAbs : ℚ) < (2:ℚ) ^ (24:ℤ) := by
          have hx1 : (m.natAbs : ℚ) < ((2 ^ 24 : ℕ) : ℚ) := by exact_mod_cast hm
          have hx2 : ((2 ^ 24 : ℕ) : ℚ) = (2:ℚ) ^ (24:ℤ) := by norm_num
          linarith
        exact mul_lt_mul_of_pos_right hcast (two_zpow_pos d)
      have hb2 : (2:ℚ) ^ (24:ℤ) * 2 ^ d ≤ (2:ℚ) ^ (24:ℤ) * 2 ^ (f - 24) := by
        have := zpow_le_zpow_right₀ (by norm_num : (1:ℚ) ≤ 2) (by omega : d ≤ f - 24)
        exact mul_le_mul_of_nonneg_left this (by positivity)
      have hb3 : (2:ℚ) ^ (24:ℤ) * 2 ^ (f - 24) = (2:ℚ) ^ f := by
        rw [← zpow_add₀ (by norm_num : (2:ℚ) ≠ 0)]
        congr 1
        ring
      linarith
    have hfle : (2:ℝ) ^ f ≤ Real.sqrt (v:ℝ) := by
      have h2f : ((2:ℝ) ^ f) ^ 2 = (2:ℝ) ^ (2 * f) := by
        rw [← zpow_natCast ((2:ℝ) ^ f) 2, ← zpow_mul]
        congr 1
        ring
      rw [show (2:ℝ) ^ f = Real.sqrt ((2:ℝ) ^ (2 * f)) by
        rw [← h2f, Real.sqrt_sq (by positivity)]]
      refine Real.sqrt_le_sqrt ?_
      have : (((2:ℚ) ^ (2 * f) : ℚ) : ℝ) ≤ ((v:ℚ):ℝ) := by exact_mod_cast hlow
      calc (2:ℝ) ^ (2 * f) = (((2:ℚ) ^ (2 * f) : ℚ) : ℝ) := by push_cast; ring
        _ ≤ (v:ℝ) := this
    have h23 := hgrid (2 ^ 23)
    have hpt : ((2 ^ 23 : ℤ) : ℝ) * (2:ℝ) ^ (f - 23) = (2:ℝ) ^ f := by
      rw [show ((2 ^ 23 : ℤ) : ℝ) = (2:ℝ) ^ (23:ℤ) by norm_num,
        ← zpow_add₀ (by norm_num : (2:ℝ) ≠ 0)]
      congr 1
      ring
    rw [hpt] at h23
    have hsr : (((m : ℚ) * 2 ^ d : ℚ) : ℝ) < (2:ℝ) ^ f := by
      have h1 : (((m : ℚ) * 2 ^ d : ℚ) : ℝ) ≤ |(((m : ℚ) * 2 ^ d : ℚ) : ℝ)| := le_abs_self _
      have h2 : |(((m : ℚ) * 2 ^ d : ℚ) : ℝ)| < (2:ℝ) ^ f := by
        rw [← Rat.cast_abs]
        calc ((|(m : ℚ) * 2 ^ d| : ℚ) : ℝ) < (((2:ℚ) ^ f : ℚ) : ℝ) := by exact_mod_cast hsb
          _ = (2:ℝ) ^ f := by push_cast; ring
      linarith
    calc |Real.sqrt (v:ℝ) -
          (((if (2 * Nat.sqrt W + 1) ^ 2 ≤ 4 * W then Nat.sqrt W + 1 else Nat.sqrt W : ℕ) : ℝ)
            * (2:ℝ) ^ (f - 23))| ≤ |Real.sqrt (v:ℝ) - (2:ℝ) ^ f| := h23
      _ = Real.sqrt (v:ℝ) - (2:ℝ) ^ f := abs_of_nonneg (by linarith)
      _ ≤ Real.sqrt (v:ℝ) - (((m : ℚ) * 2 ^ d : ℚ) : ℝ) := by linarith
      _ ≤ |Real.sqrt (v:ℝ) - (((m : ℚ) * 2 ^ d : ℚ) : ℝ)| := le_abs_self _

theorem sqrt32_eq (v : ℚ) (h0 : 0 < v) :
    sqrt32 v =
      ((if (2 * Nat.sqrt ((⌊v * 2 ^ (46 - 2 * (Int.log 2 v / 2))⌋).toNat) + 1) ^ 2
          ≤ 4 * (⌊v * 2 ^ (46 - 2 * (Int.log 2 v / 2))⌋).toNat
        then Nat.sqrt ((⌊v * 2 ^ (46 - 2 * (Int.log 2 v / 2))⌋).toNat) + 1
        else Nat.sqrt ((⌊v * 2 ^ (46 - 2 * (Int.log 2 v / 2))⌋).toNat) : ℕ) : ℚ)
        * 2 ^ (Int.log 2 v / 2 - 23) := by
  rw [sqrt32, if_neg (not_le.mpr h0)]

theorem sqrt32_nearest (v : ℚ) (hv : isF32 v) (h0 : 0 < v) (s : ℚ) (hs : isF32 s) :
    |Real.sqrt (v:ℝ) - ((sqrt32 v : ℚ) : ℝ)| ≤ |Real.sqrt (v:ℝ) - ((s : ℚ) : ℝ)| := by
  obtain ⟨hf1, _hf2, _hf3⟩ := int_log_two_bounds v hv h0
  have hlow : (2:ℚ) ^ (2 * (Int.log 2 v / 2)) ≤ v := by
    calc (2:ℚ) ^ (2 * (Int.log 2 v / 2)) ≤ 2 ^ Int.log 2 v :=
          zpow_le_zpow_right₀ (by norm_num) hf1
      _ ≤ v := Int.zpow_log_le_self (by norm_num) h0
  have haux := sqrt_nearest_aux v (Int.log 2 v / 2)
    ((⌊v * 2 ^ (46 - 2 * (Int.log 2 v / 2))⌋).toNat)
    (sqrt32_W_spec v hv h0) hlow s hs
  have hcast : ((sqrt32 v : ℚ) : ℝ) =
      ((if (2 * Nat.sqrt ((⌊v * 2 ^ (46 - 2 * (Int.log 2 v / 2))⌋).toNat) + 1) ^ 2
          ≤ 4 * (⌊v * 2 ^ (46 - 2 * (Int.log 2 v / 2))⌋).toNat
        then Nat.sqrt ((⌊v * 2 ^ (46 - 2 * (Int.log 2 v / 2))⌋).toNat) + 1
        else Nat.sqrt ((⌊v * 2 ^ (46 - 2 * (Int.log 2 v / 2))⌋).toNat) : ℕ) : ℝ)
        * (2:ℝ) ^ (Int.log 2 v / 2 - 23) := by
    rw [sqrt32_eq v h0, Rat.cast_mul, Rat.cast_natCast, Rat.cast_zpow, Rat.cast_ofNat]
  rw [hcast]
  exact haux

theorem sqrt32_nonneg (v : ℚ) : 0 ≤ sqrt32 v := by
  rcases le_or_lt v 0 with h | h
  · rw [sqrt32, if_pos h]
  · rw [sqrt32_eq v h]
    positivity

theorem isF32_sqrt32 {v : ℚ} (hv : isF32 v) (h0 : 0 < v) : isF32 (sqrt32 v) := by
  obtain ⟨hf1, hf2, hf3⟩ := int_log_two_bounds v hv h0
  have hWx := sqrt32_W_spec v hv h0
  set W := (⌊v * 2 ^ (46 - 2 * (Int.log 2 v / 2))⌋).toNat with hWdef
  have hv_up : v < 2 ^ (Int.log 2 v + 1) := Int.lt_zpow_succ_log_self (by norm_num) v
  have hW48 : (W:ℚ) < (2:ℚ) ^ (48:ℤ) := by
    rw [hWx]
    calc v * 2 ^ (46 - 2 * (Int.log 2 v / 2))
        < 2 ^ (Int.log 2 v + 1) * 2 ^ (46 - 2 * (Int.log 2 v / 2)) :=
          mul_lt_mul_of_pos_right hv_up (two_zpow_pos _)
      _ = 2 ^ (Int.log 2 v + 1 + (46 - 2 * (Int.log 2 v / 2))) := by
          rw [← zpow_add₀ (by norm_num : (2:ℚ) ≠ 0)]
      _ ≤ 2 ^ (48:ℤ) := zpow_le_zpow_right₀ (by norm_num) (by omega)
  have hWn : W < 2 ^ 48 := by
    have h1 : ((W:ℕ):ℚ) < ((2 ^ 48 : ℕ):ℚ) := by
      have h2 : ((2 ^ 48 : ℕ):ℚ) = (2:ℚ) ^ (48:ℤ) := by norm_num
      linarith
    exact_mod_cast h1
  have hk : Nat.sqrt W < 2 ^ 24 := by
    rw [Nat.sqrt_lt']
    calc W < 2 ^ 48 := hWn
      _ = (2 ^ 24) ^ 2 := by norm_num
  rw [sqrt32_eq v h0, ← hWdef]
  set k2 := (if (2 * Nat.sqrt W + 1) ^ 2 ≤ 4 * W then Nat.sqrt W + 1 else Nat.sqrt W : ℕ)
    with hk2def
  have hk2le : k2 ≤ 2 ^ 24 := by
    rw [hk2def]
    split_ifs <;> omega
  have hσ : -149 ≤ Int.log 2 v / 2 - 23 := by omega
  rcases eq_or_lt_of_le hk2le with he | hlt
  · refine ⟨2 ^ 23, Int.log 2 v / 2 - 23 + 1, by norm_num, by omega, ?_⟩
    rw [he]
    push_cast
    rw [zpow_add_one₀ (by norm_num : (2:ℚ) ≠ 0)]
    ring
  · exact ⟨(k2 : ℤ), Int.log 2 v / 2 - 23, by omega, hσ, by push_cast; ring⟩

theorem sqrt32_mono {x y : ℚ} (hx : isF32 x) (hy : isF32 y) (h0 : 0 < x) (hxy : x ≤ y) :
    sqrt32 x ≤ sqrt32 y := by
  by_contra hcon
  push_neg at hcon
  have h0y : 0 < y := lt_of_lt_of_le h0 hxy
  have h1 := sqrt32_nearest x hx h0 (sqrt32 y) (isF32_sqrt32 hy h0y)
  have h2 := sqrt32_nearest y hy h0y (sqrt32 x) (isF32_sqrt32 hx h0)
  have hba : ((sqrt32 y : ℚ) : ℝ) < ((sqrt32 x : ℚ) : ℝ) := by exact_mod_cast hcon
  have hsle : Real.sqrt (x:ℝ) ≤ Real.sqrt (y:ℝ) := Real.sqrt_le_sqrt (by exact_mod_cast hxy)
  have s1 : (Real.sqrt (x:ℝ) - ((sqrt32 x : ℚ):ℝ)) ^ 2
      ≤ (Real.sqrt (x:ℝ) - ((sqrt32 y : ℚ):ℝ)) ^ 2 := by
    have := mul_self_le_mul_self (abs_nonneg _) h1
    rwa [abs_mul_abs_self, abs_mul_abs_self, ← sq, ← sq] at this
  have s2 : (Real.sqrt (y:ℝ) - ((sqrt32 y : ℚ):ℝ)) ^ 2
      ≤ (Real.sqrt (y:ℝ) - ((sqrt32 x : ℚ):ℝ)) ^ 2 := by
    have := mul_self_le_mul_self (abs_nonneg _) h2
    rwa [abs_mul_abs_self, abs_mul_abs_self, ← sq, ← sq] at this
  have hab1 : ((sqrt32 x : ℚ):ℝ) + ((sqrt32 y : ℚ):ℝ) ≤ 2 * Real.sqrt (x:ℝ) := by nlinarith
  have hab2 : 2 * Real.sqrt (y:ℝ) ≤ ((sqrt32 x : ℚ):ℝ) + ((sqrt32 y : ℚ):ℝ) := by nlinarith
  have hse : Real.sqrt (x:ℝ) = Real.sqrt (y:ℝ) := le_antisymm hsle (by linarith)
  have hxe : (x:ℝ) = (y:ℝ) := by
    have hx0 : (0:ℝ) ≤ (x:ℝ) := by exact_mod_cast h0.le
    have hy0 : (0:ℝ) ≤ (y:ℝ) := by exact_mod_cast h0y.le
    calc (x:ℝ) = Real.sqrt (x:ℝ) ^ 2 := (Real.sq_sqrt hx0).symm
      _ = Real.sqrt (y:ℝ) ^ 2 := by rw [hse]
      _ = (y:ℝ) := Real.sq_sqrt hy0
  have hfin : x = y := by exact_mod_cast hxe
  rw [hfin] at hcon
  exact lt_irrefl _ hcon

theorem sqrt32_exact (v r : ℚ) (hv : isF32 v) (hr : isF32 r) (h0 : 0 < r)
    (hsq : r * r = v) : sqrt32 v = r := by
  have h0v : 0 < v := by nlinarith
  have h1 := sqrt32_nearest v hv h0v r hr
  have hs : Real.sqrt (v:ℝ) = (r:ℝ) := by
    rw [show ((v:ℚ):ℝ) = (r:ℝ) * (r:ℝ) by exact_mod_cast hsq.symm]
    exact Real.sqrt_mul_self (by exact_mod_cast h0.le)
  rw [hs] at h1
  rw [sub_self, abs_zero] at h1
  have h2 : |(r:ℝ) - ((sqrt32 v : ℚ):ℝ)| = 0 := le_antisymm h1 (abs_nonneg _)
  have h3 := abs_eq_zero.mp h2
  have h4 : (r:ℝ) = ((sqrt32 v : ℚ):ℝ) := by linarith
  exact_mod_cast h4.symm

/-! The f32 constants of hypixel.rs evaluate exactly. -/

theorem isF32_num (q : ℚ) (m : ℤ) (e : ℤ) (hm : m.natAbs < 2 ^ 24) (he : -149 ≤ e)
    (hq : q = m * 2 ^ e) : isF32 q := ⟨m, e, hm, he, hq⟩

theorem isF32_one : isF32 (1 : ℚ) :=
  isF32_num 1 1 0 (by norm_num) (by norm_num) (by norm_num)

theorem isF32_49_4 : isF32 ((49 : ℚ) / 4) :=
  isF32_num (49 / 4) 49 (-2) (by norm_num) (by norm_num) (by norm_num)

theorem isF32_7_2 : isF32 ((7 : ℚ) / 2) :=
  isF32_num (7 / 2) 7 (-1) (by norm_num) (by norm_num) (by norm_num)

theorem mul32_half_growth : mul32 (1 / 2) GROWTH = 1250 := by
  unfold mul32 GROWTH
  rw [show (1:ℚ) / 2 * 2500 = 1250 by norm_num]
  exact rnd32_id 1250 (isF32_num 1250 1250 0 (by norm_num) (by norm_num) (by norm_num))

theorem reverse_pq_value : REVERSE_PQ_PREFIX = -(7 / 2) := by
  unfold REVERSE_PQ_PREFIX
  rw [mul32_half_growth]
  rw [show sub32 BASE 1250 = 8750 by
    unfold sub32 BASE
    rw [show (10000:ℚ) - 1250 = 8750 by norm_num]
    exact rnd32_id 8750 (isF32_num 8750 8750 0 (by norm_num) (by norm_num) (by norm_num))]
  rw [show div32 8750 GROWTH = 7 / 2 by
    unfold div32 GROWTH
    rw [show (8750:ℚ) / 2500 = 7 / 2 by norm_num]
    exact rnd32_id (7 / 2) isF32_7_2]

theorem reverse_const_value : REVERSE_CONST = 49 / 4 := by
  unfold REVERSE_CONST mul32
  rw [reverse_pq_value, show (-(7/2) : ℚ) * (-(7/2)) = 49 / 4 by norm_num]
  exact rnd32_id (49 / 4) isF32_49_4

theorem gd2_nonneg : 0 ≤ GROWTH_DIVIDES_2 := by
  unfold GROWTH_DIVIDES_2 div32 GROWTH
  exact rnd32_nonneg _ (by norm_num)

theorem gd2_isF32 : isF32 GROWTH_DIVIDES_2 := by
  unfold GROWTH_DIVIDES_2 div32 GROWTH
  exact isF32_rnd32 _ (by norm_num)

theorem one_plus_pq : add32 1 REVERSE_PQ_PREFIX = -(5 / 2) := by
  unfold add32
  rw [reverse_pq_value, show (1:ℚ) + -(7/2) = -(5/2) by norm_num]
  exact rnd32_id _ (isF32_neg (isF32_num (5/2) 5 (-1) (by norm_num) (by norm_num) (by norm_num)))

theorem sqrt32_49_4 : sqrt32 (49 / 4) = 7 / 2 :=
  sqrt32_exact (49 / 4) (7 / 2) isF32_49_4 isF32_7_2 (by norm_num) (by norm_num)

theorem i32f_neg_one : i32f (-1) = -1 := by
  unfold i32f
  rw [show ((-1:ℤ):ℚ) = (-1:ℚ) by norm_num]
  exact rnd32_id (-1) (isF32_neg isF32_one)

/-! calculate_level: boundary values and monotonicity. -/

theorem calculate_level_neg (exp : ℚ) (h : exp < 0) : calculate_level exp = 1 := by
  rw [calculate_level, if_pos h]

theorem calculate_level_zero : calculate_level 0 = 1 := by
  rw [calculate_level, if_neg (by norm_num)]
  have h1 : mul32 GROWTH_DIVIDES_2 0 = 0 := by
    unfold mul32
    rw [mul_zero]
    simp [rnd32]
  rw [h1]
  have h2 : add32 REVERSE_CONST 0 = 49 / 4 := by
    unfold add32
    rw [reverse_const_value, add_zero]
    exact rnd32_id _ isF32_49_4
  rw [h2, sqrt32_49_4, one_plus_pq]
  have h3 : add32 (-(5/2)) (7/2) = 1 := by
    unfold add32
    rw [show (-(5/2) : ℚ) + 7/2 = 1 by norm_num]
    exact rnd32_id 1 isF32_one
  rw [h3]
  unfold floor32
  norm_num

theorem calculate_level_mono_aux (a b : ℚ) (_ha : isF32 a) (_hb : isF32 b) (h0 : 0 ≤ a)
    (hab : a ≤ b) : calculate_level a ≤ calculate_level b := by
  have h0b : 0 ≤ b := le_trans h0 hab
  rw [calculate_level, calculate_level, if_neg (not_lt.mpr h0), if_neg (not_lt.mpr h0b)]
  unfold floor32
  have hc0 : 0 ≤ GROWTH_DIVIDES_2 := gd2_nonneg
  have hua0 : 0 ≤ GROWTH_DIVIDES_2 * a := mul_nonneg hc0 h0
  have hub0 : 0 ≤ GROWTH_DIVIDES_2 * b := mul_nonneg hc0 h0b
  have hu_mono : mul32 GROWTH_DIVIDES_2 a ≤ mul32 GROWTH_DIVIDES_2 b := by
    unfold mul32
    exact rnd32_mono hua0 (mul_le_mul_of_nonneg_left hab hc0)
  have hua0r : 0 ≤ mul32 GROWTH_DIVIDES_2 a := by
    unfold mul32
    exact rnd32_nonneg _ hua0
  have hub0r : 0 ≤ mul32 GROWTH_DIVIDES_2 b := by
    unfold mul32
    exact rnd32_nonneg _ hub0
  have hRC : REVERSE_CONST = 49 / 4 := reverse_const_value
  have hta : 49 / 4 ≤ add32 REVERSE_CONST (mul32 GROWTH_DIVIDES_2 a) := by
    unfold add32
    rw [hRC]
    have h1 : rnd32 (49/4) ≤ rnd32 (49/4 + mul32 GROWTH_DIVIDES_2 a) :=
      rnd32_mono (by norm_num) (by linarith)
    rwa [rnd32_id (49/4) isF32_49_4] at h1
  have htb : 49 / 4 ≤ add32 REVERSE_CONST (mul32 GROWTH_DIVIDES_2 b) := by
    unfold add32
    rw [hRC]
    have h1 : rnd32 (49/4) ≤ rnd32 (49/4 + mul32 GROWTH_DIVIDES_2 b) :=
      rnd32_mono (by norm_num) (by linarith)
    rwa [rnd32_id (49/4) isF32_49_4] at h1
  have htaF : isF32 (add32 REVERSE_CONST (mul32 GROWTH_DIVIDES_2 a)) := by
    unfold add32
    exact isF32_rnd32 _ (by rw [hRC]; linarith)
  have htbF : isF32 (add32 REVERSE_CONST (mul32 GROWTH_DIVIDES_2 b)) := by
    unfold add32
    exact isF32_rnd32 _ (by rw [hRC]; linarith)
  have ht_mono : add32 REVERSE_CONST (mul32 GROWTH_DIVIDES_2 a)
      ≤ add32 REVERSE_CONST (mul32 GROWTH_DIVIDES_2 b) := by
    unfold add32
    exact rnd32_mono (by rw [hRC]; linarith) (by linarith)
  have hs_mono : sqrt32 (add32 REVERSE_CONST (mul32 GROWTH_DIVIDES_2 a))
      ≤ sqrt32 (add32 REVERSE_CONST (mul32 GROWTH_DIVIDES_2 b)) :=
    sqrt32_mono htaF htbF (by linarith) ht_mono
  have hs_lb : 7 / 2 ≤ sqrt32 (add32 REVERSE_CONST (mul32 GROWTH_DIVIDES_2 a)) := by
    have h1 := sqrt32_mono isF32_49_4 htaF (by norm_num) hta
    rwa [sqrt32_49_4] at h1
  have hfin : rnd32 (-(5/2) + sqrt32 (add32 REVERSE_CONST (mul32 GROWTH_DIVIDES_2 a)))
      ≤ rnd32 (-(5/2) + sqrt32 (add32 REVERSE_CONST (mul32 GROWTH_DIVIDES_2 b))) :=
    rnd32_mono (by linarith) (by linarith)
  have hrw : ∀ u : ℚ, add32 (add32 1 REVERSE_PQ_PREFIX) u = rnd32 (-(5/2) + u) := by
    intro u
    rw [one_plus_pq]
    rfl
  rw [hrw, hrw]
  exact_mod_cast Int.floor_mono hfin

/-- C6: calculate_level returns 1 for every negative experience and for
experience zero, and is monotonically non-decreasing on the nonnegative f32
values, under the 32-bit arithmetic of the reference constants. -/
theorem c6_level_boundary_and_mono :
    (∀ exp : ℚ, exp < 0 → calculate_level exp = 1) ∧
    calculate_level 0 = 1 ∧
    (∀ a b : ℚ, isF32 a → isF32 b → 0 ≤ a → a ≤ b →
      calculate_level a ≤ calculate_level b) :=
  ⟨calculate_level_neg, calculate_level_zero, calculate_level_mono_aux⟩

/-- Witness for C6 at concrete inputs. -/
theorem c6_level_boundary_and_mono_witness :
    calculate_level (-1) = 1 ∧ calculate_level 0 ≤ calculate_level 1 :=
  ⟨c6_level_boundary_and_mono.1 (-1) (by decide),
   c6_level_boundary_and_mono.2.2 0 1 ⟨0, 0, by decide, by decide, by simp⟩
     ⟨1, 0, by decide, by decide, by simp⟩ (by decide) (by decide)⟩

/-- C7: the report's level field is the achievements bedwars level defaulted
to the -1 sentinel; fkdr and wlr are the unguarded f32 quotients of the
-1-defaulted final-kills over final-deaths and wins over losses; in
particular 5 final kills with 0 final deaths give positive infinity, and both
fields absent give (-1)/(-1) = 1. -/
theorem c7_sentinel_defaults_and_ratios :
    (∀ raw uuid, (HypixelPlayer.from_api raw uuid).level =
      (raw.achievements.bind ApiAchievements.bedwars_level).getD (-1)) ∧
    (∀ raw uuid, (HypixelPlayer.from_api raw uuid).fkdr =
      divF32 (i32f (((raw.stats.bind ApiStats.bedwars).bind
          ApiBedwarsStats.final_kills_bedwars).getD (-1)))
        (i32f (((raw.stats.bind ApiStats.bedwars).bind
          ApiBedwarsStats.final_deaths_bedwars).getD (-1)))) ∧
    (∀ raw uuid, (HypixelPlayer.from_api raw uuid).wlr =
      divF32 (i32f (((raw.stats.bind ApiStats.bedwars).bind
          ApiBedwarsStats.wins_bedwars).getD (-1)))
        (i32f (((raw.stats.bind ApiStats.bedwars).bind
          ApiBedwarsStats.losses_bedwars).getD (-1)))) ∧
    (HypixelPlayer.from_api rawFiveZero "u").fkdr = .pinf ∧
    (HypixelPlayer.from_api rawAbsent "u").fkdr = .finite 1 := by
  refine ⟨fun raw uuid => rfl, fun raw uuid => rfl, fun raw uuid => rfl, ?_, ?_⟩
  · show divF32 (i32f 5) (i32f 0) = .pinf
    have h5 : i32f 5 = 5 := by
      unfold i32f
      rw [show ((5:ℤ):ℚ) = (5:ℚ) by norm_num]
      exact rnd32_id 5 (isF32_num 5 5 0 (by norm_num) (by norm_num) (by norm_num))
    have hz : i32f 0 = 0 := by
      unfold i32f
      rw [show ((0:ℤ):ℚ) = (0:ℚ) by norm_num]
      simp [rnd32]
    rw [h5, hz]
    unfold divF32
    rw [if_pos rfl, if_pos (by norm_num : (0:ℚ) < 5)]
  · show divF32 (i32f (-1)) (i32f (-1)) = .finite 1
    rw [i32f_neg_one]
    unfold divF32
    rw [if_neg (by norm_num : (-1:ℚ) ≠ 0),
      show (-1:ℚ) / (-1) = 1 by norm_num, rnd32_id 1 isF32_one]

/-- C8: the report stores network_xp defaulted to 0 on absence while
network_level is computed by the level formula applied to the -1 sentinel, so
an absent experience gives network_xp = 0 together with network_level = 1;
a present experience e gives network_xp = e and network_level equal to the
rounded formula value at e. -/
theorem c8_experience_sentinel_asymmetry :
    (∀ raw uuid, (HypixelPlayer.from_api raw uuid).network_xp = raw.network_xp.getD 0) ∧
    (∀ raw uuid, (HypixelPlayer.from_api raw uuid).network_level =
      i32sat (roundAway (calculate_level (i32f (raw.network_xp.getD (-1)))))) ∧
    (∀ (raw : ApiHypixelPlayer) (uuid : String),
      (HypixelPlayer.from_api { raw with network_xp := none } uuid).network_xp = 0) ∧
    (∀ (raw : ApiHypixelPlayer) (uuid : String),
      (HypixelPlayer.from_api { raw with network_xp := none } uuid).network_level = 1) ∧
    (∀ (raw : ApiHypixelPlayer) (uuid : String) (e : ℤ),
      (HypixelPlayer.from_api { raw with network_xp := some e } uuid).network_xp = e) ∧
    (∀ (raw : ApiHypixelPlayer) (uuid : String) (e : ℤ),
      (HypixelPlayer.from_api { raw with network_xp := some e } uuid).network_level
        = i32sat (roundAway (calculate_level (i32f e)))) := by
  refine ⟨fun raw uuid => rfl, fun raw uuid => rfl, fun raw uuid => rfl, ?_,
    fun raw uuid e => rfl, fun raw uuid e => rfl⟩
  intro raw uuid
  show i32sat (roundAway (calculate_level (i32f (-1)))) = 1
  rw [i32f_neg_one, calculate_level_neg (-1) (by norm_num)]
  unfold roundAway i32sat
  norm_num

/-- C5: evaluating the active fetch at a success response whose body is the
empty JSON object: the body is parsed directly as the HypixelPlayer report
struct and the fetch fails with a deserialization error (a missing required
field), never with PlayerNotFound; the spec-modelled fetch (the commented-out
replacement behind the TODO in main.rs) treats the top-level player field as
optional and fails with PlayerNotFound on the same input, and the two failure
conditions are distinct. -/
theorem c5_player_not_found_missing :
    get_hypixel_data true (.obj []) =
      .error (.deserialization ("invalid field " ++ "name")) ∧
    get_hypixel_data_spec true "u" (.obj []) = .error .playerNotFound ∧
    (∀ msg, HypixelFetchError.deserialization msg ≠ .playerNotFound) := by
  refine ⟨rfl, rfl, ?_⟩
  intro msg
  simp
